import Mathlib

/-!
Verification development for the IR chatbot command-execution pipeline.

The JavaScript source is shallowly embedded: JSON values become the mutual
inductive `JVal`/`JArr`/`JObj`, JS strings become `String`/`List Char`,
`JSON.parse` becomes the fueled recursive-descent parser `jparseL` (fuel
`length + 1` always suffices, since every recursive call consumes at least
one character), `JSON.stringify` becomes `printJL`, and the callback-driven
child-process handling of `powershellService.execute` becomes a pure state
machine over an explicit event list.  Fallible operations return `Option`.
All definitions are plain structural recursions, so every concrete run
reduces by `rfl`/`decide`.
-/

/-- Whitespace test matching JSON whitespace and the common JS trim set. -/
def isWsCh (c : Char) : Bool :=
  c == ' ' || c == '\t' || c == '\n' || c == '\r'

/-- ASCII digit test (the `\d` class used by the source's IP regex and by
JSON number syntax). -/
def isDigitCh (c : Char) : Bool :=
  48 ≤ c.toNat && c.toNat ≤ 57

/-- Drop leading whitespace. -/
def skipWs : List Char → List Char
  | [] => []
  | c :: cs => if isWsCh c then skipWs cs else c :: cs

/-- Model of JS `String.prototype.trim`: strip whitespace on both ends. -/
def trimL (cs : List Char) : List Char :=
  ((cs.dropWhile isWsCh).reverse.dropWhile isWsCh).reverse

/-- Model of JS `a || b` on strings: the empty string is falsy. -/
def strOr (a b : String) : String :=
  if a = "" then b else a

/-- Association-list lookup, modelling JS object property access
(`obj[key]`); keys are unique in the configurations we model. -/
def lookupS {α : Type} : List (String × α) → String → Option α
  | [], _ => none
  | (k, v) :: tl, key => if k = key then some v else lookupS tl key

/-- Does `needle` occur as a prefix of `hay`? -/
def headMatches : List Char → List Char → Bool
  | [], _ => true
  | _ :: _, [] => false
  | a :: as, b :: bs => a == b && headMatches as bs

/-- Does `needle` occur as a contiguous substring of `hay`? -/
def containsSub (needle : List Char) : List Char → Bool
  | [] => needle.isEmpty
  | c :: cs => headMatches needle (c :: cs) || containsSub needle cs

/-- Model of JS `String.prototype.toLowerCase` (ASCII-faithful). -/
def toLowerStr (s : String) : String :=
  String.mk (s.data.map Char.toLower)

/-- Split a character list on `'.'`, for the IP-address regex model. -/
def splitDots : List Char → List (List Char)
  | [] => [[]]
  | c :: cs =>
    if c = '.' then [] :: splitDots cs
    else
      match splitDots cs with
      | g :: gs => (c :: g) :: gs
      | [] => [[c]]

/-- Split a character list on `'\n'`, modelling JS `split('\n')`. -/
def splitNl : List Char → List (List Char)
  | [] => [[]]
  | c :: cs =>
    if c = '\n' then [] :: splitNl cs
    else
      match splitNl cs with
      | g :: gs => (c :: g) :: gs
      | [] => [[c]]

/-! ## JSON values

`JVal` models the values produced by `JSON.parse`: the source only ever
handles parsed-JSON data (finite trees), numbers appearing in the pipeline
are integers.  A mutual inductive (rather than nesting `List`) keeps every
recursion structural and kernel-computable. -/

mutual
inductive JVal : Type where
  | jnull : JVal
  | jbool (b : Bool) : JVal
  | jnum (n : Int) : JVal
  | jstr (s : String) : JVal
  | jarr (xs : JArr) : JVal
  | jobj (fs : JObj) : JVal

inductive JArr : Type where
  | nil : JArr
  | cons (v : JVal) (tl : JArr) : JArr

inductive JObj : Type where
  | nil : JObj
  | cons (k : String) (v : JVal) (tl : JObj) : JObj
end

/-- Build an object field list from a `List`. -/
def JObj.ofList : List (String × JVal) → JObj
  | [] => JObj.nil
  | (k, v) :: tl => JObj.cons k v (JObj.ofList tl)

/-- Build an array from a `List`. -/
def JArr.ofList : List JVal → JArr
  | [] => JArr.nil
  | v :: tl => JArr.cons v (JArr.ofList tl)

mutual
/-- Height of a JSON tree (1 for leaves); used as always-sufficient fuel
for the loops of the result normalizer. -/
def jheight : JVal → Nat
  | JVal.jobj fs => jheightO fs + 1
  | JVal.jarr xs => jheightA xs + 1
  | _ => 1

def jheightA : JArr → Nat
  | JArr.nil => 0
  | JArr.cons v tl => max (jheight v) (jheightA tl)

def jheightO : JObj → Nat
  | JObj.nil => 0
  | JObj.cons _ v tl => max (jheight v) (jheightO tl)
end

/-- Property lookup on a parsed-JSON object (JS `obj[key]`); `none` models
JS `undefined`. -/
def getField : JObj → String → Option JVal
  | JObj.nil, _ => none
  | JObj.cons k v fs, key => if k = key then some v else getField fs key

/-- Property lookup on an arbitrary value: non-objects have no properties. -/
def objField (v : JVal) (key : String) : Option JVal :=
  match v with
  | JVal.jobj fs => getField fs key
  | _ => none

/-- JS truthiness of a (possibly `undefined`) value. -/
def truthy : Option JVal → Bool
  | none => false
  | some JVal.jnull => false
  | some (JVal.jbool b) => b
  | some (JVal.jnum n) => !(n == 0)
  | some (JVal.jstr s) => !(s == "")
  | some (JVal.jarr _) => true
  | some (JVal.jobj _) => true

/-! ## Decimal integer printing (JS number-to-string for integers) -/

/-- The character of a decimal digit. -/
def dChar (n : Nat) : Char := Char.ofNat (48 + n)

/-- Digit accumulator: fuel `n + 1` always suffices since `n < 10 ^ (n+1)`. -/
def natCharsFuel : Nat → Nat → List Char → List Char
  | 0, _, acc => acc
  | f + 1, n, acc =>
    if n < 10 then dChar n :: acc
    else natCharsFuel f (n / 10) (dChar (n % 10) :: acc)

/-- Decimal digits of a natural number. -/
def natChars (n : Nat) : List Char := natCharsFuel (n + 1) n []

/-- Decimal representation of an integer, as `JSON.stringify` prints it. -/
def intChars (n : Int) : List Char :=
  if n < 0 then '-' :: natChars n.natAbs else natChars n.natAbs

/-- Numeric value of one digit character. -/
def dVal (c : Char) : Nat := c.toNat - 48

/-- Left-to-right decimal accumulation, as a parser reads digits. -/
def digitsValFrom (a : Nat) : List Char → Nat
  | [] => a
  | c :: cs => digitsValFrom (a * 10 + dVal c) cs

/-! ## JSON printing (`JSON.stringify` / `ConvertTo-Json -Compress`) -/

/-- Escape one character of a JSON string literal.  `JSON.stringify` also
escapes control characters; the claims never exercise those, and the
parser below accepts them raw, so the round trip is unaffected. -/
def escChar (c : Char) : List Char :=
  if c = '"' || c = '\\' then ['\\', c] else [c]

/-- Escape a character list for embedding in a JSON string literal. -/
def escL : List Char → List Char
  | [] => []
  | c :: cs => escChar c ++ escL cs

mutual
/-- Compact JSON printing of a value, as a character list. -/
def printJL : JVal → List Char
  | JVal.jnull => ['n', 'u', 'l', 'l']
  | JVal.jbool true => ['t', 'r', 'u', 'e']
  | JVal.jbool false => ['f', 'a', 'l', 's', 'e']
  | JVal.jnum n => intChars n
  | JVal.jstr s => '"' :: escL s.data ++ ['"']
  | JVal.jarr xs => '[' :: printArrL xs
  | JVal.jobj fs => '{' :: printObjL fs

/-- Prints the elements and the closing bracket of an array. -/
def printArrL : JArr → List Char
  | JArr.nil => [']']
  | JArr.cons v JArr.nil => printJL v ++ [']']
  | JArr.cons v tl => printJL v ++ ',' :: printArrL tl

/-- Prints the fields and the closing brace of an object. -/
def printObjL : JObj → List Char
  | JObj.nil => ['}']
  | JObj.cons k v JObj.nil => '"' :: escL k.data ++ '"' :: ':' :: printJL v ++ ['}']
  | JObj.cons k v tl => '"' :: escL k.data ++ '"' :: ':' :: printJL v ++ ',' :: printObjL tl
end

/-- Compact JSON printing of a value, as a string. -/
def printJ (v : JVal) : String := String.mk (printJL v)

/-! ## JSON parsing (`JSON.parse`) -/

/-- Unescape the character after a backslash in a JSON string literal
(lenient on escapes `JSON.parse` would reject; not exercised). -/
def unescChar (c : Char) : Char :=
  if c = 'n' then '\n'
  else if c = 't' then '\t'
  else if c = 'r' then '\r'
  else c

/-- Parse the body of a string literal (after the opening quote) up to and
including the closing quote. -/
def parseStrChars : List Char → Option (List Char × List Char)
  | [] => none
  | c :: cs =>
    if c = '"' then some ([], cs)
    else if c = '\\' then
      match cs with
      | [] => none
      | e :: cs2 =>
        match parseStrChars cs2 with
        | some (s, r) => some (unescChar e :: s, r)
        | none => none
    else
      match parseStrChars cs with
      | some (s, r) => some (c :: s, r)
      | none => none

/-- Parse a nonempty run of decimal digits. -/
def parseNatNum (cs : List Char) : Option (Nat × List Char) :=
  let ds := cs.takeWhile isDigitCh
  if ds.isEmpty then none
  else some (digitsValFrom 0 ds, cs.dropWhile isDigitCh)

/-- Parse an (optionally negated) integer literal. -/
def parseNum (cs : List Char) : Option (JVal × List Char) :=
  match cs with
  | '-' :: cs2 =>
    match parseNatNum cs2 with
    | some (m, r) => some (JVal.jnum (-(m : Int)), r)
    | none => none
  | _ =>
    match parseNatNum cs with
    | some (m, r) => some (JVal.jnum (m : Int), r)
    | none => none

mutual
/-- Fueled recursive-descent JSON value parser.  Fuel is consumed once per
nesting level; since each level consumes at least one input character,
fuel `input length + 1` never runs out. -/
def parseVal : Nat → List Char → Option (JVal × List Char)
  | 0, _ => none
  | fuel + 1, cs =>
    match skipWs cs with
    | [] => none
    | c :: r =>
      if c = '{' then
        match parseFields fuel r with
        | some (fs, r1) => some (JVal.jobj fs, r1)
        | none => none
      else if c = '[' then
        match parseElems fuel r with
        | some (xs, r1) => some (JVal.jarr xs, r1)
        | none => none
      else if c = '"' then
        match parseStrChars r with
        | some (s, r1) => some (JVal.jstr (String.mk s), r1)
        | none => none
      else if c = 'n' then
        match r with
        | 'u' :: 'l' :: 'l' :: r1 => some (JVal.jnull, r1)
        | _ => none
      else if c = 't' then
        match r with
        | 'r' :: 'u' :: 'e' :: r1 => some (JVal.jbool true, r1)
        | _ => none
      else if c = 'f' then
        match r with
        | 'a' :: 'l' :: 's' :: 'e' :: r1 => some (JVal.jbool false, r1)
        | _ => none
      else if c = '-' || isDigitCh c then parseNum (c :: r)
      else none

/-- Parse object fields after the opening brace, through the closing brace
(lenient about a trailing comma, which no theorem exercises). -/
def parseFields : Nat → List Char → Option (JObj × List Char)
  | 0, _ => none
  | fuel + 1, cs =>
    match skipWs cs with
    | [] => none
    | c :: r =>
      if c = '}' then some (JObj.nil, r)
      else if c = '"' then
        match parseStrChars r with
        | some (k, r1) =>
          match skipWs r1 with
          | ':' :: r2 =>
            match parseVal fuel r2 with
            | some (v, r3) =>
              match skipWs r3 with
              | ',' :: r4 =>
                match parseFields fuel r4 with
                | some (fs, r5) => some (JObj.cons (String.mk k) v fs, r5)
                | none => none
              | '}' :: r4 => some (JObj.cons (String.mk k) v JObj.nil, r4)
              | _ => none
            | none => none
          | _ => none
        | none => none
      else none

/-- Parse array elements after the opening bracket, through the closing
bracket. -/
def parseElems : Nat → List Char → Option (JArr × List Char)
  | 0, _ => none
  | fuel + 1, cs =>
    match skipWs cs with
    | [] => none
    | c :: r =>
      if c = ']' then some (JArr.nil, r)
      else
        match parseVal fuel (c :: r) with
        | some (v, r1) =>
          match skipWs r1 with
          | ',' :: r2 =>
            match parseElems fuel r2 with
            | some (xs, r3) => some (JArr.cons v xs, r3)
            | none => none
          | ']' :: r2 => some (JArr.cons v JArr.nil, r2)
          | _ => none
        | none => none
end

/-- Model of `JSON.parse` on a character list: a full parse must consume
everything but trailing whitespace. -/
def jparseL (cs : List Char) : Option JVal :=
  match parseVal (cs.length + 1) cs with
  | some (v, rest) => if (skipWs rest).isEmpty then some v else none
  | none => none

/-! ## Round trip: parsing a printed value recovers it -/

theorem skipWs_cons_nws {c : Char} (h : isWsCh c = false) (cs : List Char) :
    skipWs (c :: cs) = c :: cs := by
  simp [skipWs, h]

theorem dChar_isDigit {m : Nat} (h : m < 10) : isDigitCh (dChar m) = true := by
  interval_cases m <;> decide

theorem dChar_dVal {m : Nat} (h : m < 10) : dVal (dChar m) = m := by
  interval_cases m <;> decide

theorem digit_facts {c : Char} (hc : isDigitCh c = true) :
    isWsCh c = false ∧ c ≠ '{' ∧ c ≠ '[' ∧ c ≠ '"' ∧ c ≠ 'n' ∧ c ≠ 't' ∧ c ≠ 'f' := by
  refine ⟨?_, ?_, ?_, ?_, ?_, ?_, ?_⟩
  · cases hw : isWsCh c
    · rfl
    · exfalso
      simp only [isWsCh, Bool.or_eq_true, beq_iff_eq] at hw
      rcases hw with ((h | h) | h) | h <;> (try subst h) <;> exact absurd hc (by decide)
  all_goals (intro h; subst h; exact absurd hc (by decide))

theorem dvf_append (a : Nat) (xs ys : List Char) :
    digitsValFrom a (xs ++ ys) = digitsValFrom (digitsValFrom a xs) ys := by
  induction xs generalizing a with
  | nil => rfl
  | cons c cs ih => exact ih (a * 10 + dVal c)

theorem ncf_spec : ∀ f n acc, n < 10 ^ (f + 1) →
    ∃ ds, natCharsFuel (f + 1) n acc = ds ++ acc ∧ ds ≠ [] ∧
      (∀ c ∈ ds, isDigitCh c = true) ∧
      ∀ a, digitsValFrom a ds = a * 10 ^ ds.length + n := by
  intro f
  induction f with
  | zero =>
    intro n acc hn
    have h10 : n < 10 := by simpa using hn
    have hfe : natCharsFuel 1 n acc = [dChar n] ++ acc := by
      show (if n < 10 then dChar n :: acc
            else natCharsFuel 0 (n / 10) (dChar (n % 10) :: acc)) = [dChar n] ++ acc
      rw [if_pos h10]
      rfl
    refine ⟨[dChar n], hfe, by simp, ?_, ?_⟩
    · intro c hcm
      simp only [List.mem_singleton] at hcm
      subst hcm
      exact dChar_isDigit h10
    · intro a
      show a * 10 + dVal (dChar n) = a * 10 ^ (1 : Nat) + n
      rw [dChar_dVal h10, pow_one]
  | succ f ih =>
    intro n acc hn
    by_cases h10 : n < 10
    · have hfe : natCharsFuel (f + 1 + 1) n acc = [dChar n] ++ acc := by
        show (if n < 10 then dChar n :: acc
              else natCharsFuel (f + 1) (n / 10) (dChar (n % 10) :: acc)) = [dChar n] ++ acc
        rw [if_pos h10]
        rfl
      refine ⟨[dChar n], hfe, by simp, ?_, ?_⟩
      · intro c hcm
        simp only [List.mem_singleton] at hcm
        subst hcm
        exact dChar_isDigit h10
      · intro a
        show a * 10 + dVal (dChar n) = a * 10 ^ (1 : Nat) + n
        rw [dChar_dVal h10, pow_one]
    · have hdiv : n / 10 < 10 ^ (f + 1) := by
        rw [Nat.div_lt_iff_lt_mul (by norm_num)]
        calc n < 10 ^ (f + 1 + 1) := hn
        _ = 10 ^ (f + 1) * 10 := by rw [pow_succ]
      obtain ⟨ds, hds, hne, hdig, hval⟩ := ih (n / 10) (dChar (n % 10) :: acc) hdiv
      have hstep : natCharsFuel (f + 1 + 1) n acc
          = natCharsFuel (f + 1) (n / 10) (dChar (n % 10) :: acc) := by
        show (if n < 10 then dChar n :: acc
              else natCharsFuel (f + 1) (n / 10) (dChar (n % 10) :: acc))
            = natCharsFuel (f + 1) (n / 10) (dChar (n % 10) :: acc)
        rw [if_neg h10]
      refine ⟨ds ++ [dChar (n % 10)], ?_, by simp, ?_, ?_⟩
      · rw [hstep, hds]
        simp
      · intro c hcm
        rcases List.mem_append.mp hcm with h | h
        · exact hdig c h
        · simp only [List.mem_singleton] at h
          subst h
          exact dChar_isDigit (Nat.mod_lt _ (by norm_num))
      · intro a
        rw [dvf_append, hval a]
        have hdv : dVal (dChar (n % 10)) = n % 10 :=
          dChar_dVal (Nat.mod_lt _ (by norm_num))
        show (a * 10 ^ ds.length + n / 10) * 10 + dVal (dChar (n % 10))
            = a * 10 ^ (ds ++ [dChar (n % 10)]).length + n
        rw [hdv, List.length_append, List.length_singleton, pow_succ, ← mul_assoc]
        set m := a * 10 ^ ds.length
        omega

theorem natChars_spec (n : Nat) :
    natChars n ≠ [] ∧ (∀ c ∈ natChars n, isDigitCh c = true) ∧
      digitsValFrom 0 (natChars n) = n := by
  have hn : n < 10 ^ (n + 1) :=
    lt_of_lt_of_le (Nat.lt_pow_self (by norm_num) n)
      (Nat.pow_le_pow_right (by norm_num) (Nat.le_succ n))
  obtain ⟨ds, hds, hne, hdig, hval⟩ := ncf_spec n n [] hn
  have he : natChars n = ds := by
    rw [natChars, hds, List.append_nil]
  rw [he]
  exact ⟨hne, hdig, by rw [hval 0]; simp⟩

theorem takeWhile_append_all {p : Char → Bool} {xs ys : List Char}
    (h : ∀ c ∈ xs, p c = true) (hy : ∀ c, ys.head? = some c → p c = false) :
    (xs ++ ys).takeWhile p = xs ∧ (xs ++ ys).dropWhile p = ys := by
  induction xs with
  | nil =>
    simp only [List.nil_append]
    cases ys with
    | nil => simp
    | cons c cs =>
      have := hy c rfl
      simp [List.takeWhile, List.dropWhile, this]
  | cons x xs ih =>
    have hx : p x = true := h x (List.mem_cons_self _ _)
    have ihh := ih (fun c hc => h c (List.mem_cons_of_mem _ hc))
    simp [List.takeWhile, List.dropWhile, hx, ihh.1, ihh.2]

/-- Trailing context whose head cannot extend a digit run. -/
def noDigitHead (cs : List Char) : Bool :=
  match cs with
  | [] => true
  | c :: _ => !(isDigitCh c)

theorem noDigitHead_spec {cs : List Char} (h : noDigitHead cs = true) :
    ∀ c, cs.head? = some c → isDigitCh c = false := by
  intro c hc
  cases cs with
  | nil => simp at hc
  | cons d tl =>
    simp only [List.head?] at hc
    injection hc with hc
    subst hc
    simpa [noDigitHead] using h

theorem parseNatNum_rt (n : Nat) (rest : List Char) (hr : noDigitHead rest = true) :
    parseNatNum (natChars n ++ rest) = some (n, rest) := by
  obtain ⟨hne, hdig, hval⟩ := natChars_spec n
  obtain ⟨htake, hdrop⟩ := takeWhile_append_all hdig (noDigitHead_spec hr)
  simp [parseNatNum, htake, hdrop, hne, hval]

theorem parseNum_rt (n : Int) (rest : List Char) (hr : noDigitHead rest = true) :
    parseNum (intChars n ++ rest) = some (JVal.jnum n, rest) := by
  by_cases hneg : n < 0
  · have he : intChars n ++ rest = '-' :: (natChars n.natAbs ++ rest) := by
      simp [intChars, hneg]
    rw [he]
    show (match parseNatNum (natChars n.natAbs ++ rest) with
          | some (m, r) => some (JVal.jnum (-(m : Int)), r)
          | none => none) = some (JVal.jnum n, rest)
    rw [parseNatNum_rt _ _ hr]
    show some (JVal.jnum (-((n.natAbs : Nat) : Int)), rest) = some (JVal.jnum n, rest)
    have h : -((n.natAbs : Nat) : Int) = n := by omega
    rw [h]
  · have he : intChars n ++ rest = natChars n.natAbs ++ rest := by
      simp [intChars, hneg]
    obtain ⟨hne, hdig, _⟩ := natChars_spec n.natAbs
    rw [he]
    cases hnc : natChars n.natAbs with
    | nil => exact absurd hnc hne
    | cons d ds =>
      have hd : isDigitCh d = true := by
        apply hdig
        rw [hnc]
        exact List.mem_cons_self _ _
      have hdm : d ≠ '-' := by
        intro h
        subst h
        exact absurd hd (by decide)
      have hstep : parseNum ((d :: ds) ++ rest) =
          (match parseNatNum ((d :: ds) ++ rest) with
           | some (m, r) => some (JVal.jnum (m : Int), r)
           | none => none) := by
        simp only [List.cons_append, parseNum]
        split
        · next heq => exact absurd (List.head_eq_of_cons_eq heq.symm) (Ne.symm hdm)
        · rfl
      rw [hstep, ← hnc, parseNatNum_rt _ _ hr]
      show some (JVal.jnum ((n.natAbs : Nat) : Int), rest) = some (JVal.jnum n, rest)
      have h : ((n.natAbs : Nat) : Int) = n := by omega
      rw [h]

theorem parseStrChars_cons (c : Char) (cs : List Char) :
    parseStrChars (c :: cs) =
      (if c = '"' then some ([], cs)
       else if c = '\\' then
         match cs with
         | [] => none
         | e :: cs2 =>
           match parseStrChars cs2 with
           | some (s, r) => some (unescChar e :: s, r)
           | none => none
       else
         match parseStrChars cs with
         | some (s, r) => some (c :: s, r)
         | none => none) := by
  conv_lhs => unfold parseStrChars

theorem parseVal_cons (fuel : Nat) {c : Char} (hw : isWsCh c = false) (r : List Char) :
    parseVal (fuel + 1) (c :: r) =
      (if c = '{' then
        match parseFields fuel r with
        | some (fs, r1) => some (JVal.jobj fs, r1)
        | none => none
      else if c = '[' then
        match parseElems fuel r with
        | some (xs, r1) => some (JVal.jarr xs, r1)
        | none => none
      else if c = '"' then
        match parseStrChars r with
        | some (s, r1) => some (JVal.jstr (String.mk s), r1)
        | none => none
      else if c = 'n' then
        match r with
        | 'u' :: 'l' :: 'l' :: r1 => some (JVal.jnull, r1)
        | _ => none
      else if c = 't' then
        match r with
        | 'r' :: 'u' :: 'e' :: r1 => some (JVal.jbool true, r1)
        | _ => none
      else if c = 'f' then
        match r with
        | 'a' :: 'l' :: 's' :: 'e' :: r1 => some (JVal.jbool false, r1)
        | _ => none
      else if c = '-' || isDigitCh c then parseNum (c :: r)
      else none) := by
  unfold parseVal
  rw [skipWs_cons_nws hw]

theorem parseFields_cons (fuel : Nat) {c : Char} (hw : isWsCh c = false) (r : List Char) :
    parseFields (fuel + 1) (c :: r) =
      (if c = '}' then some (JObj.nil, r)
       else if c = '"' then
         match parseStrChars r with
         | some (k, r1) =>
           (match skipWs r1 with
            | ':' :: r2 =>
              (match parseVal fuel r2 with
               | some (v, r3) =>
                 (match skipWs r3 with
                  | ',' :: r4 =>
                    (match parseFields fuel r4 with
                     | some (fs, r5) => some (JObj.cons (String.mk k) v fs, r5)
                     | none => none)
                  | '}' :: r4 => some (JObj.cons (String.mk k) v JObj.nil, r4)
                  | _ => none)
               | none => none)
            | _ => none)
         | none => none
       else none) := by
  conv_lhs => unfold parseFields
  rw [skipWs_cons_nws hw]

theorem parseElems_cons (fuel : Nat) {c : Char} (hw : isWsCh c = false) (r : List Char) :
    parseElems (fuel + 1) (c :: r) =
      (if c = ']' then some (JArr.nil, r)
       else
         match parseVal fuel (c :: r) with
         | some (v, r1) =>
           (match skipWs r1 with
            | ',' :: r2 =>
              (match parseElems fuel r2 with
               | some (xs, r3) => some (JArr.cons v xs, r3)
               | none => none)
            | ']' :: r2 => some (JArr.cons v JArr.nil, r2)
            | _ => none)
         | none => none) := by
  conv_lhs => unfold parseElems
  rw [skipWs_cons_nws hw]

theorem parseStr_rt (cs rest : List Char) :
    parseStrChars (escL cs ++ '"' :: rest) = some (cs, rest) := by
  induction cs with
  | nil =>
    have h0 : escL [] ++ '"' :: rest = '"' :: rest := rfl
    rw [h0]
    unfold parseStrChars
    rw [if_pos rfl]
  | cons c cs ih =>
    by_cases hc : c = '"' || c = '\\'
    · have he : escL (c :: cs) ++ '"' :: rest = '\\' :: c :: (escL cs ++ '"' :: rest) := by
        simp [escL, escChar, hc]
      rw [he]
      show (match parseStrChars (escL cs ++ '"' :: rest) with
            | some (s, r) => some (unescChar c :: s, r)
            | none => none) = some (c :: cs, rest)
      rw [ih]
      have hu : unescChar c = c := by
        rcases Bool.or_eq_true_iff.mp hc with h | h
        · rw [of_decide_eq_true h]
          rfl
        · rw [of_decide_eq_true h]
          rfl
      rw [hu]
    · have he : escL (c :: cs) ++ '"' :: rest = c :: (escL cs ++ '"' :: rest) := by
        simp [escL, escChar, hc]
      rw [he]
      have h1 : c ≠ '"' := by
        intro h
        subst h
        simp at hc
      have h2 : c ≠ '\\' := by
        intro h
        subst h
        simp at hc
      rw [parseStrChars_cons, if_neg h1, if_neg h2, ih]

theorem parseVal_digit_dispatch (fuel : Nat) {c : Char} (hc : isDigitCh c = true)
    (r : List Char) : parseVal (fuel + 1) (c :: r) = parseNum (c :: r) := by
  obtain ⟨hw, h1, h2, h3, h4, h5, h6⟩ := digit_facts hc
  rw [parseVal_cons fuel hw]
  rw [if_neg h1, if_neg h2, if_neg h3, if_neg h4, if_neg h5, if_neg h6]
  have hcond : (decide (c = '-') || isDigitCh c) = true := by
    rw [hc, Bool.or_true]
  rw [if_pos hcond]

theorem parseVal_num_rt (fuel : Nat) (n : Int) (rest : List Char)
    (hr : noDigitHead rest = true) :
    parseVal (fuel + 1) (intChars n ++ rest) = some (JVal.jnum n, rest) := by
  by_cases hneg : n < 0
  · have he : intChars n ++ rest = '-' :: (natChars n.natAbs ++ rest) := by
      simp [intChars, hneg]
    rw [he]
    show parseNum ('-' :: (natChars n.natAbs ++ rest)) = some (JVal.jnum n, rest)
    rw [show ('-' :: (natChars n.natAbs ++ rest)) = intChars n ++ rest from he.symm]
    exact parseNum_rt n rest hr
  · have he : intChars n ++ rest = natChars n.natAbs ++ rest := by
      simp [intChars, hneg]
    obtain ⟨hne, hdig, _⟩ := natChars_spec n.natAbs
    rw [he]
    cases hnc : natChars n.natAbs with
    | nil => exact absurd hnc hne
    | cons d ds =>
      have hd : isDigitCh d = true := by
        apply hdig
        rw [hnc]
        exact List.mem_cons_self _ _
      rw [List.cons_append, parseVal_digit_dispatch fuel hd, ← List.cons_append, ← hnc,
        ← he]
      exact parseNum_rt n rest hr

theorem printJL_head_safe (v : JVal) :
    ∃ c t, printJL v = c :: t ∧ isWsCh c = false ∧ c ≠ ']' := by
  cases v with
  | jnull => exact ⟨'n', _, rfl, by decide, by decide⟩
  | jbool b => cases b
               · exact ⟨'f', _, rfl, by decide, by decide⟩
               · exact ⟨'t', _, rfl, by decide, by decide⟩
  | jnum n =>
    by_cases hn : n < 0
    · refine ⟨'-', natChars n.natAbs, ?_, by decide, by decide⟩
      simp [printJL, intChars, hn]
    · obtain ⟨hne, hdig, _⟩ := natChars_spec n.natAbs
      cases hnc : natChars n.natAbs with
      | nil => exact absurd hnc hne
      | cons d ds =>
        have hd : isDigitCh d = true := by
          apply hdig
          rw [hnc]
          exact List.mem_cons_self _ _
        refine ⟨d, ds, ?_, (digit_facts hd).1, ?_⟩
        · show intChars n = d :: ds
          rw [intChars, if_neg hn, hnc]
        · intro h
          subst h
          exact absurd hd (by decide)
  | jstr s => exact ⟨'"', _, rfl, by decide, by decide⟩
  | jarr xs => exact ⟨'[', _, rfl, by decide, by decide⟩
  | jobj fs => exact ⟨'{', _, rfl, by decide, by decide⟩

theorem parse_print_rt : ∀ fuel,
    (∀ v rest, (printJL v).length < fuel → noDigitHead rest = true →
      parseVal fuel (printJL v ++ rest) = some (v, rest))
  ∧ (∀ fs rest, (printObjL fs).length < fuel →
      parseFields fuel (printObjL fs ++ rest) = some (fs, rest))
  ∧ (∀ xs rest, (printArrL xs).length < fuel →
      parseElems fuel (printArrL xs ++ rest) = some (xs, rest)) := by
  intro fuel
  induction fuel with
  | zero =>
    refine ⟨?_, ?_, ?_⟩ <;> (intro x rest h; exact absurd h (Nat.not_lt_zero _))
  | succ fuel ih =>
    obtain ⟨ihv, ihf, ihe⟩ := ih
    refine ⟨?_, ?_, ?_⟩
    · intro v rest hlen hnd
      cases v with
      | jnull => exact rfl
      | jbool b => cases b <;> exact rfl
      | jnum n => exact parseVal_num_rt fuel n rest hnd
      | jstr s =>
        have he : printJL (JVal.jstr s) ++ rest = '"' :: (escL s.data ++ '"' :: rest) := by
          simp [printJL]
        rw [he, parseVal_cons fuel (by decide) _]
        rw [if_neg (by decide : ¬('"' = '{')), if_neg (by decide : ¬('"' = '[')),
          if_pos rfl]
        simp only [parseStr_rt]
      | jarr xs =>
        have he : printJL (JVal.jarr xs) ++ rest = '[' :: (printArrL xs ++ rest) := by
          simp [printJL]
        have hlen2 : (printArrL xs).length < fuel := by
          have h2 : (printJL (JVal.jarr xs)).length = (printArrL xs).length + 1 := by
            simp [printJL]
          omega
        rw [he, parseVal_cons fuel (by decide) _]
        rw [if_neg (by decide : ¬('[' = '{')), if_pos rfl]
        simp only [ihe xs rest hlen2]
      | jobj fs =>
        have he : printJL (JVal.jobj fs) ++ rest = '{' :: (printObjL fs ++ rest) := by
          simp [printJL]
        have hlen2 : (printObjL fs).length < fuel := by
          have h2 : (printJL (JVal.jobj fs)).length = (printObjL fs).length + 1 := by
            simp [printJL]
          omega
        rw [he, parseVal_cons fuel (by decide) _]
        rw [if_pos rfl]
        simp only [ihf fs rest hlen2]
    · intro fs rest hlen
      cases fs with
      | nil => exact rfl
      | cons k v tl =>
        cases tl with
        | nil =>
          have he : printObjL (JObj.cons k v JObj.nil) ++ rest
              = '"' :: (escL k.data ++ '"' :: (':' :: (printJL v ++ '}' :: rest))) := by
            simp [printObjL]
          have hlen2 : (printJL v).length < fuel := by
            have h2 : (printObjL (JObj.cons k v JObj.nil)).length
                = (escL k.data).length + (printJL v).length + 4 := by
              simp [printObjL]
              omega
            omega
          have hpv : parseVal fuel (printJL v ++ '}' :: rest) = some (v, '}' :: rest) :=
            ihv v ('}' :: rest) hlen2 rfl
          rw [he, parseFields_cons fuel (by decide) _]
          rw [if_neg (by decide : ¬('"' = '}')), if_pos rfl]
          simp only [parseStr_rt]
          rw [skipWs_cons_nws (by decide)]
          simp only [hpv]
          rw [skipWs_cons_nws (by decide)]
          rfl
        | cons k2 v2 tl2 =>
          have he : printObjL (JObj.cons k v (JObj.cons k2 v2 tl2)) ++ rest
              = '"' :: (escL k.data ++ '"' ::
                  (':' :: (printJL v ++ ',' :: (printObjL (JObj.cons k2 v2 tl2) ++ rest)))) := by
            simp [printObjL]
          have hlen2 : (printJL v).length < fuel ∧
              (printObjL (JObj.cons k2 v2 tl2)).length < fuel := by
            have h2 : (printObjL (JObj.cons k v (JObj.cons k2 v2 tl2))).length
                = (escL k.data).length + (printJL v).length
                  + (printObjL (JObj.cons k2 v2 tl2)).length + 4 := by
              simp [printObjL]
              omega
            omega
          have hpv : parseVal fuel (printJL v ++ ',' :: (printObjL (JObj.cons k2 v2 tl2) ++ rest))
              = some (v, ',' :: (printObjL (JObj.cons k2 v2 tl2) ++ rest)) :=
            ihv v _ hlen2.1 rfl
          have hpf : parseFields fuel (printObjL (JObj.cons k2 v2 tl2) ++ rest)
              = some (JObj.cons k2 v2 tl2, rest) :=
            ihf _ rest hlen2.2
          rw [he, parseFields_cons fuel (by decide) _]
          rw [if_neg (by decide : ¬('"' = '}')), if_pos rfl]
          simp only [parseStr_rt]
          rw [skipWs_cons_nws (by decide)]
          simp only [hpv]
          rw [skipWs_cons_nws (by decide)]
          simp only [hpf]
    · intro xs rest hlen
      cases xs with
      | nil => exact rfl
      | cons v tl =>
        obtain ⟨c, t, hct, hw, hcb⟩ := printJL_head_safe v
        cases tl with
        | nil =>
          have he : printArrL (JArr.cons v JArr.nil) ++ rest
              = c :: (t ++ ']' :: rest) := by
            show (printJL v ++ [']']) ++ rest = c :: (t ++ ']' :: rest)
            rw [hct]
            simp
          have hlen2 : (printJL v).length < fuel := by
            have h2 : (printArrL (JArr.cons v JArr.nil)).length
                = (printJL v).length + 1 := by
              simp [printArrL]
            omega
          have hpv : parseVal fuel (printJL v ++ ']' :: rest) = some (v, ']' :: rest) :=
            ihv v (']' :: rest) hlen2 rfl
          have hpv2 : parseVal fuel (c :: (t ++ ']' :: rest)) = some (v, ']' :: rest) := by
            rw [← hpv, hct]
            simp
          rw [he, parseElems_cons fuel hw _]
          rw [if_neg hcb]
          simp only [hpv2]
          rw [skipWs_cons_nws (by decide)]
          rfl
        | cons v2 tl2 =>
          have he : printArrL (JArr.cons v (JArr.cons v2 tl2)) ++ rest
              = c :: (t ++ ',' :: (printArrL (JArr.cons v2 tl2) ++ rest)) := by
            show (printJL v ++ ',' :: printArrL (JArr.cons v2 tl2)) ++ rest
                = c :: (t ++ ',' :: (printArrL (JArr.cons v2 tl2) ++ rest))
            rw [hct]
            simp
          have hlen2 : (printJL v).length < fuel ∧
              (printArrL (JArr.cons v2 tl2)).length < fuel := by
            have h2 : (printArrL (JArr.cons v (JArr.cons v2 tl2))).length
                = (printJL v).length + (printArrL (JArr.cons v2 tl2)).length + 1 := by
              simp [printArrL]
              omega
            omega
          have hpv : parseVal fuel (printJL v ++ ',' :: (printArrL (JArr.cons v2 tl2) ++ rest))
              = some (v, ',' :: (printArrL (JArr.cons v2 tl2) ++ rest)) :=
            ihv v _ hlen2.1 rfl
          have hpv2 : parseVal fuel (c :: (t ++ ',' :: (printArrL (JArr.cons v2 tl2) ++ rest)))
              = some (v, ',' :: (printArrL (JArr.cons v2 tl2) ++ rest)) := by
            rw [← hpv, hct]
            simp
          have hpe : parseElems fuel (printArrL (JArr.cons v2 tl2) ++ rest)
              = some (JArr.cons v2 tl2, rest) :=
            ihe _ rest hlen2.2
          rw [he, parseElems_cons fuel hw _]
          rw [if_neg hcb]
          simp only [hpv2]
          rw [skipWs_cons_nws (by decide)]
          simp only [hpe]

theorem jparseL_print (v : JVal) : jparseL (printJL v) = some v := by
  obtain ⟨rt, -, -⟩ := parse_print_rt ((printJL v).length + 1)
  have h := rt v [] (Nat.lt_succ_self _) rfl
  rw [List.append_nil] at h
  unfold jparseL
  simp only [h]
  rfl

/-! ## Result Normalizer (`powershellService.execute`, close handler)

The source (src/unnamed/part_003, lines 187-259) parses the child process
output: locate a JSON span with the regex `\x7b[\s\S]*\x7d` (first brace to
last), `JSON.parse` it, branch on the `Success` envelope, then run two
`while` loops: unwrap `Invoke-Command` transport envelopes (objects with
both a `value` and a `PSComputerName` property), and re-parse string
payloads that look like JSON.  Neither loop carries an iteration bound in
the source; on parsed-JSON data the first runs once per nesting level and
the second at most once, so the fueled versions below with fuel `jheight`
(resp. 2) compute exactly the loops' fixpoints — `unwrapSteps_stable` and
`reparseSteps_stable` prove the fuel never matters. -/

/-- Outcome of the `execute` promise: `resolved none` models JS
`resolve(undefined)`. -/
inductive PSOutcome : Type where
  | resolved (v : Option JVal) : PSOutcome
  | rejected (msg : String) : PSOutcome

/-- The regex match `trimmedOutput.match(/\x7b[\s\S]*\x7d/)`: from the
first `'\x7b'` through the last `'\x7d'`, when that span is nonempty. -/
def jsonMatchL (cs : List Char) : Option (List Char) :=
  let t := cs.dropWhile (fun c => !(c == '{'))
  let u := (t.reverse.dropWhile (fun c => !(c == '}'))).reverse
  if 2 ≤ u.length then some u else none

/-- Is the working value an `Invoke-Command` transport envelope (the
source's loop guard `data && typeof data === 'object' &&
data.value !== undefined && data.PSComputerName !== undefined`)? -/
def isEnvObj : JVal → Bool
  | JVal.jobj fs => (getField fs "value").isSome && (getField fs "PSComputerName").isSome
  | _ => false

/-- One fueled run of the source's envelope-unwrap `while` loop. -/
def unwrapSteps : Nat → JVal → JVal
  | 0, v => v
  | fuel + 1, v =>
    match v with
    | JVal.jobj fs =>
      match getField fs "value", getField fs "PSComputerName" with
      | some w, some _ => unwrapSteps fuel w
      | _, _ => JVal.jobj fs
    | w => w

/-- The unwrap loop itself: fuel `jheight` always reaches the fixpoint. -/
def unwrapPS (v : JVal) : JVal := unwrapSteps (jheight v) v

/-- Number of iterations the unwrap loop performs. -/
def unwrapCountSteps : Nat → JVal → Nat
  | 0, _ => 0
  | fuel + 1, v =>
    match v with
    | JVal.jobj fs =>
      match getField fs "value", getField fs "PSComputerName" with
      | some w, some _ => unwrapCountSteps fuel w + 1
      | _, _ => 0
    | _ => 0

/-- Iteration count of the unwrap loop on a value. -/
def unwrapCount (v : JVal) : Nat := unwrapCountSteps (jheight v) v

/-- Source guard `trimmed.startsWith('\x7b') || trimmed.startsWith('[')`. -/
def startsStruct (cs : List Char) : Bool :=
  match cs with
  | c :: _ => c == '{' || c == '['
  | [] => false

/-- One fueled run of the source's string-reparse `while` loop. -/
def reparseSteps : Nat → JVal → JVal
  | 0, v => v
  | fuel + 1, v =>
    match v with
    | JVal.jstr s =>
      if startsStruct (trimL s.data) then
        match jparseL (trimL s.data) with
        | some w => reparseSteps fuel w
        | none => JVal.jstr s
      else JVal.jstr s
    | w => w

/-- The string-reparse loop: a successful parse of a brace-headed text is
never a string, so the loop exits after at most one successful parse
(`reparseSteps_stable`). -/
def reparseLoop (v : JVal) : JVal := reparseSteps 2 v

mutual
/-- JS `String(v)` coercion, used by `new Error(result.Error || ...)`. -/
def jsToStr : JVal → String
  | JVal.jnull => "null"
  | JVal.jbool true => "true"
  | JVal.jbool false => "false"
  | JVal.jnum n => String.mk (intChars n)
  | JVal.jstr s => s
  | JVal.jobj _ => "[object Object]"
  | JVal.jarr xs => jsToStrA xs

/-- JS array-to-string: `join(',')` with null elements printing empty. -/
def jsToStrA : JArr → String
  | JArr.nil => ""
  | JArr.cons v JArr.nil =>
    (match v with
     | JVal.jnull => ""
     | w => jsToStr w)
  | JArr.cons v tl =>
    (match v with
     | JVal.jnull => ""
     | w => jsToStr w) ++ "," ++ jsToStrA tl
end

/-- Message of `new Error(result.Error || 'Unknown error')`. -/
def errEnvelopeMsg (e : Option JVal) : String :=
  match e with
  | some v => if truthy (some v) then jsToStr v else "Unknown error"
  | none => "Unknown error"

/-- Message `PowerShell exited with code N`. -/
def exitedMsg (code : Int) : String := s!"PowerShell exited with code {code}"

/-- Message `Exit code N`. -/
def exitCodeMsg (code : Int) : String := s!"Exit code {code}"

/-- The `{ Success: true, Data: null }` object resolved for empty output. -/
def emptySuccess : JVal :=
  JVal.jobj (JObj.cons "Success" (JVal.jbool true) (JObj.cons "Data" JVal.jnull JObj.nil))

/-- The `ps.on('close', ...)` handler of `powershellService.execute`
(src/unnamed/part_003, lines 187-259), as a pure function of the captured
stdout, stderr and exit code.  `JSON.parse` failures are the `catch`
branch. -/
def closeHandler (stdout stderr : String) (code : Int) : PSOutcome :=
  let trimmedOutput := trimL stdout.data
  if trimmedOutput.isEmpty then
    if code = 0 then PSOutcome.resolved (some emptySuccess)
    else PSOutcome.rejected (strOr stderr (exitedMsg code))
  else
    match jsonMatchL trimmedOutput with
    | some jtxt =>
      match jparseL jtxt with
      | some result =>
        if truthy (objField result "Success") then
          PSOutcome.resolved ((objField result "Data").map (fun d => reparseLoop (unwrapPS d)))
        else
          PSOutcome.rejected (errEnvelopeMsg (objField result "Error"))
      | none =>
        if code = 0 then PSOutcome.resolved (some (JVal.jstr (String.mk trimmedOutput)))
        else PSOutcome.rejected (strOr stderr (strOr stdout (exitCodeMsg code)))
    | none =>
      if code = 0 then PSOutcome.resolved (some (JVal.jstr (String.mk trimmedOutput)))
      else PSOutcome.rejected (strOr stderr (strOr (String.mk trimmedOutput) (exitCodeMsg code)))

theorem jheight_pos (v : JVal) : 1 ≤ jheight v := by
  cases v <;> simp [jheight]

theorem getField_height (fs : JObj) (k : String) (w : JVal)
    (h : getField fs k = some w) : jheight w ≤ jheightO fs := by
  match fs with
  | JObj.nil => exact absurd h (by simp [getField])
  | JObj.cons k2 v tl =>
    by_cases hk : k2 = k
    · have hv : v = w := by
        have h2 : (if k2 = k then some v else getField tl k) = some w := h
        rw [if_pos hk] at h2
        injection h2
      subst hv
      show jheight v ≤ max (jheight v) (jheightO tl)
      exact le_max_left _ _
    · have h2 : getField tl k = some w := by
        have h3 : (if k2 = k then some v else getField tl k) = some w := h
        rwa [if_neg hk] at h3
      calc jheight w ≤ jheightO tl := getField_height tl k w h2
      _ ≤ max (jheight v) (jheightO tl) := le_max_right _ _

theorem unwrapSteps_env {fs : JObj} {w p : JVal}
    (hv : getField fs "value" = some w) (hp : getField fs "PSComputerName" = some p)
    (fuel : Nat) : unwrapSteps (fuel + 1) (JVal.jobj fs) = unwrapSteps fuel w := by
  simp only [unwrapSteps, hv, hp]

theorem unwrapSteps_nonenv {v : JVal} (h : isEnvObj v = false) (fuel : Nat) :
    unwrapSteps (fuel + 1) v = v := by
  cases v with
  | jobj fs =>
    cases hv : getField fs "value" with
    | none => simp only [unwrapSteps, hv]
    | some w =>
      cases hp : getField fs "PSComputerName" with
      | none => simp only [unwrapSteps, hv, hp]
      | some p =>
        exfalso
        simp only [isEnvObj] at h
        rw [hv, hp] at h
        simp at h
  | jnull => rfl
  | jbool b => rfl
  | jnum n => rfl
  | jstr s => rfl
  | jarr xs => rfl

theorem unwrapSteps_stable : ∀ f1 f2 (v : JVal), jheight v ≤ f1 → jheight v ≤ f2 →
    unwrapSteps f1 v = unwrapSteps f2 v := by
  intro f1
  induction f1 with
  | zero =>
    intro f2 v h1 _
    exact absurd h1 (by have := jheight_pos v; omega)
  | succ f1 ih =>
    intro f2 v h1 h2
    have hf2 : ∃ g, f2 = g + 1 := by
      have := jheight_pos v
      exact ⟨f2 - 1, by omega⟩
    obtain ⟨g, rfl⟩ := hf2
    by_cases henv : isEnvObj v = true
    · cases v with
      | jobj fs =>
        simp only [isEnvObj] at henv
        cases hv : getField fs "value" with
        | none => rw [hv] at henv; simp at henv
        | some w =>
          cases hp : getField fs "PSComputerName" with
          | none => rw [hv, hp] at henv; simp at henv
          | some p =>
            rw [unwrapSteps_env hv hp, unwrapSteps_env hv hp]
            have hw : jheight w ≤ jheightO fs := getField_height fs "value" w hv
            have hh : jheight (JVal.jobj fs) = jheightO fs + 1 := rfl
            exact ih g w (by omega) (by omega)
      | jnull => simp [isEnvObj] at henv
      | jbool b => simp [isEnvObj] at henv
      | jnum n => simp [isEnvObj] at henv
      | jstr s => simp [isEnvObj] at henv
      | jarr xs => simp [isEnvObj] at henv
    · have hb : isEnvObj v = false := by
        cases hx : isEnvObj v
        · rfl
        · exact absurd hx henv
      rw [unwrapSteps_nonenv hb, unwrapSteps_nonenv hb]

theorem unwrapPS_env {fs : JObj} {w p : JVal}
    (hv : getField fs "value" = some w) (hp : getField fs "PSComputerName" = some p) :
    unwrapPS (JVal.jobj fs) = unwrapPS w := by
  unfold unwrapPS
  have hh : jheight (JVal.jobj fs) = jheightO fs + 1 := rfl
  rw [hh, unwrapSteps_env hv hp]
  have hw : jheight w ≤ jheightO fs := getField_height fs "value" w hv
  exact unwrapSteps_stable _ _ w hw (le_refl _)

theorem unwrapPS_nonenv {v : JVal} (h : isEnvObj v = false) : unwrapPS v = v := by
  unfold unwrapPS
  have hp := jheight_pos v
  obtain ⟨m, hm⟩ : ∃ m, jheight v = m + 1 := ⟨jheight v - 1, by omega⟩
  rw [hm]
  exact unwrapSteps_nonenv h m

/-- Is the value a string? -/
def isJStr : JVal → Bool
  | JVal.jstr _ => true
  | _ => false

theorem jparseL_struct_not_str {cs : List Char} {w : JVal}
    (hs : startsStruct cs = true) (h : jparseL cs = some w) : isJStr w = false := by
  cases cs with
  | nil => simp [startsStruct] at hs
  | cons c r =>
    simp only [startsStruct, Bool.or_eq_true, beq_iff_eq] at hs
    have hlen : (c :: r).length + 1 = r.length + 1 + 1 := by simp
    rcases hs with hc | hc
    · subst hc
      unfold jparseL at h
      rw [hlen, parseVal_cons (r.length + 1) (by decide) r, if_pos rfl] at h
      cases hpf : parseFields (r.length + 1) r with
      | none => rw [hpf] at h; exact absurd h (by simp)
      | some pr =>
        obtain ⟨fs, r1⟩ := pr
        rw [hpf] at h
        simp only [] at h
        by_cases he : (skipWs r1).isEmpty
        · rw [if_pos he] at h
          have hw : w = JVal.jobj fs := by
            injection h with h2
            exact h2.symm
          rw [hw]
          rfl
        · rw [if_neg he] at h
          exact absurd h (by simp)
    · subst hc
      unfold jparseL at h
      rw [hlen, parseVal_cons (r.length + 1) (by decide) r,
        if_neg (by decide : ¬('[' = '{')), if_pos rfl] at h
      cases hpe : parseElems (r.length + 1) r with
      | none => rw [hpe] at h; exact absurd h (by simp)
      | some pr =>
        obtain ⟨xs, r1⟩ := pr
        rw [hpe] at h
        simp only [] at h
        by_cases he : (skipWs r1).isEmpty
        · rw [if_pos he] at h
          have hw : w = JVal.jarr xs := by
            injection h with h2
            exact h2.symm
          rw [hw]
          rfl
        · rw [if_neg he] at h
          exact absurd h (by simp)

theorem unwrapCountSteps_env {fs : JObj} {w p : JVal}
    (hv : getField fs "value" = some w) (hp : getField fs "PSComputerName" = some p)
    (fuel : Nat) :
    unwrapCountSteps (fuel + 1) (JVal.jobj fs) = unwrapCountSteps fuel w + 1 := by
  simp only [unwrapCountSteps, hv, hp]

theorem reparseSteps_nonstr {v : JVal} (h : isJStr v = false) (fuel : Nat) :
    reparseSteps fuel v = v := by
  cases fuel with
  | zero => rfl
  | succ f =>
    cases v with
    | jstr s => simp [isJStr] at h
    | jnull => rfl
    | jbool b => rfl
    | jnum n => rfl
    | jarr xs => rfl
    | jobj fs => rfl

theorem reparseSteps_stable (v : JVal) (fuel : Nat) :
    reparseSteps (fuel + 1) v = reparseSteps 1 v := by
  cases v with
  | jstr s =>
    show (if startsStruct (trimL s.data) then
            match jparseL (trimL s.data) with
            | some w => reparseSteps fuel w
            | none => JVal.jstr s
          else JVal.jstr s)
        = (if startsStruct (trimL s.data) then
            match jparseL (trimL s.data) with
            | some w => reparseSteps 0 w
            | none => JVal.jstr s
          else JVal.jstr s)
    by_cases hs : startsStruct (trimL s.data) = true
    · rw [if_pos hs, if_pos hs]
      cases hp : jparseL (trimL s.data) with
      | none => rfl
      | some w =>
        have hns : isJStr w = false := jparseL_struct_not_str hs hp
        simp only [reparseSteps_nonstr hns]
    · rw [if_neg (by simpa using hs), if_neg (by simpa using hs)]
  | jnull => rfl
  | jbool b => rfl
  | jnum n => rfl
  | jarr xs => rfl
  | jobj fs => rfl

/-- Nested transport envelopes, as an adversarial remote payload builds
them: `nestEnv n v` wraps `v` in `n` `\x7bvalue, PSComputerName\x7d`
layers. -/
def nestEnv : Nat → JVal → JVal
  | 0, v => v
  | n + 1, v =>
    JVal.jobj (JObj.cons "value" (nestEnv n v)
      (JObj.cons "PSComputerName" (JVal.jstr "HOST") JObj.nil))

theorem jheight_nestEnv (n : Nat) (v : JVal) :
    jheight (nestEnv (n + 1) v) = jheight (nestEnv n v) + 1 := by
  have h : jheight (nestEnv (n + 1) v)
      = max (jheight (nestEnv n v)) (max 1 0) + 1 := rfl
  rw [h]
  have hp := jheight_pos (nestEnv n v)
  omega

theorem unwrapCount_nestEnv (v : JVal) (hv : isEnvObj v = false) :
    ∀ n, unwrapCount (nestEnv n v) = n := by
  intro n
  induction n with
  | zero =>
    show unwrapCountSteps (jheight v) v = 0
    have hp := jheight_pos v
    obtain ⟨m, hm⟩ : ∃ m, jheight v = m + 1 := ⟨jheight v - 1, by omega⟩
    rw [hm]
    cases v with
    | jobj fs =>
      cases hg : getField fs "value" with
      | none => simp only [unwrapCountSteps, hg]
      | some w =>
        cases hq : getField fs "PSComputerName" with
        | none => simp only [unwrapCountSteps, hg, hq]
        | some p =>
          exfalso
          simp only [isEnvObj] at hv
          rw [hg, hq] at hv
          simp at hv
    | jnull => rfl
    | jbool b => rfl
    | jnum n => rfl
    | jstr s => rfl
    | jarr xs => rfl
  | succ n ih =>
    show unwrapCountSteps (jheight (nestEnv (n + 1) v)) (nestEnv (n + 1) v) = n + 1
    rw [jheight_nestEnv]
    have h1 : getField (JObj.cons "value" (nestEnv n v)
        (JObj.cons "PSComputerName" (JVal.jstr "HOST") JObj.nil)) "value"
        = some (nestEnv n v) := rfl
    have h2 : getField (JObj.cons "value" (nestEnv n v)
        (JObj.cons "PSComputerName" (JVal.jstr "HOST") JObj.nil)) "PSComputerName"
        = some (JVal.jstr "HOST") := rfl
    have hstep : unwrapCountSteps (jheight (nestEnv n v) + 1) (nestEnv (n + 1) v)
        = unwrapCountSteps (jheight (nestEnv n v)) (nestEnv n v) + 1 :=
      unwrapCountSteps_env h1 h2 _
    rw [hstep]
    exact congrArg (· + 1) ih

theorem trimL_sandwich {c d : Char} (mid : List Char)
    (hc : isWsCh c = false) (hd : isWsCh d = false) :
    trimL (c :: (mid ++ [d])) = c :: (mid ++ [d]) := by
  unfold trimL
  rw [List.dropWhile_cons, if_neg (by simp [hc])]
  have hrev : (c :: (mid ++ [d])).reverse = d :: (mid.reverse ++ [c]) := by simp
  rw [hrev, List.dropWhile_cons, if_neg (by simp [hd]), ← hrev, List.reverse_reverse]

theorem jsonMatchL_sandwich (mid : List Char) :
    jsonMatchL ('{' :: (mid ++ ['}'])) = some ('{' :: (mid ++ ['}'])) := by
  have ht : ('{' :: (mid ++ ['}'])).dropWhile (fun c => !(c == '{'))
      = '{' :: (mid ++ ['}']) := by
    rw [List.dropWhile_cons, if_neg (by decide)]
  have hrev : ('{' :: (mid ++ ['}'])).reverse = '}' :: (mid.reverse ++ ['{']) := by simp
  have hrd : ('}' :: (mid.reverse ++ ['{'])).dropWhile (fun c => !(c == '}'))
      = '}' :: (mid.reverse ++ ['{']) := by
    rw [List.dropWhile_cons, if_neg (by decide)]
  have hu : ((('{' :: (mid ++ ['}'])).dropWhile
      (fun c => !(c == '{'))).reverse.dropWhile (fun c => !(c == '}'))).reverse
      = '{' :: (mid ++ ['}']) := by
    rw [ht, hrev, hrd, ← hrev, List.reverse_reverse]
  unfold jsonMatchL
  dsimp only
  rw [hu]
  rw [if_pos (by
    simp only [List.length_cons, List.length_append, List.length_singleton]
    omega)]

theorem printObjL_ends (fs : JObj) : ∃ i, printObjL fs = i ++ ['}'] := by
  match fs with
  | JObj.nil => exact ⟨[], rfl⟩
  | JObj.cons k v JObj.nil =>
    exact ⟨'"' :: escL k.data ++ '"' :: ':' :: printJL v, by simp [printObjL]⟩
  | JObj.cons k v (JObj.cons k2 v2 tl) =>
    obtain ⟨i, hi⟩ := printObjL_ends (JObj.cons k2 v2 tl)
    refine ⟨'"' :: escL k.data ++ '"' :: ':' :: printJL v ++ ',' :: i, ?_⟩
    show '"' :: escL k.data ++ '"' :: ':' :: printJL v
        ++ ',' :: printObjL (JObj.cons k2 v2 tl)
        = ('"' :: escL k.data ++ '"' :: ':' :: printJL v ++ ',' :: i) ++ ['}']
    rw [hi]
    simp

/-- A canonical value: not a transport envelope and not a string the
reparse loop would transform, so normalization leaves it unchanged. -/
def isCanonical (v : JVal) : Bool :=
  !(isEnvObj v) &&
    (match v with
     | JVal.jstr s => !(startsStruct (trimL s.data))
     | _ => true)

theorem reparseLoop_canonical {v : JVal} (h : isCanonical v = true) :
    reparseLoop v = v := by
  cases v with
  | jstr s =>
    have hs : startsStruct (trimL s.data) = false := by
      simp only [isCanonical, Bool.and_eq_true, Bool.not_eq_true'] at h
      exact h.2
    show (if startsStruct (trimL s.data) then
            match jparseL (trimL s.data) with
            | some w => reparseSteps 1 w
            | none => JVal.jstr s
          else JVal.jstr s) = JVal.jstr s
    rw [hs]
    rfl
  | jnull => rfl
  | jbool b => rfl
  | jnum n => rfl
  | jarr xs => rfl
  | jobj fs => rfl

theorem isCanonical_not_env {v : JVal} (h : isCanonical v = true) :
    isEnvObj v = false := by
  simp only [isCanonical, Bool.and_eq_true, Bool.not_eq_true'] at h
  exact h.1

theorem closeHandler_json {stdout stderr : String} {code : Int}
    {cs jtxt : List Char} {result : JVal}
    (htrim : trimL stdout.data = cs)
    (hne : cs.isEmpty = false)
    (hjm : jsonMatchL cs = some jtxt)
    (hp : jparseL jtxt = some result)
    (hsucc : truthy (objField result "Success") = true) :
    closeHandler stdout stderr code
      = PSOutcome.resolved ((objField result "Data").map
          (fun d => reparseLoop (unwrapPS d))) := by
  unfold closeHandler
  simp only [htrim, hne, hjm, hp, hsucc]
  rfl

/-! ## Execution Engine (`powershellService.execute`, spawn and timeout)

The promise executor registers handlers for stdout/stderr data, the
timeout timer, process close and spawn error (src/unnamed/part_003, lines
154-267).  We model one invocation as a fold over the sequence of events
the runtime delivers: a promise settles once (first `resolve`/`reject`
wins), `clearTimeout` deactivates the timer, and `ps.kill('SIGTERM')` is
modelled as the child no longer running (honouring of the signal by the
OS is outside the repository). -/

inductive PSEvent : Type where
  | outData (s : String) : PSEvent
  | errData (s : String) : PSEvent
  | timeoutFire : PSEvent
  | closed (code : Int) : PSEvent
  | spawnErr (msg : String) : PSEvent

/-- Is the event a plain data chunk (no settling, no timer change)? -/
def isDataEv : PSEvent → Bool
  | PSEvent.outData _ => true
  | PSEvent.errData _ => true
  | _ => false

structure ExecState : Type where
  outBuf : String
  errBuf : String
  timerActive : Bool
  procAlive : Bool
  settled : Option PSOutcome

def initExecState : ExecState :=
  { outBuf := "", errBuf := "", timerActive := true, procAlive := true,
    settled := none }

/-- First settlement wins (JS promise semantics). -/
def settleWith (st : ExecState) (o : PSOutcome) : ExecState :=
  if st.settled.isSome then st else { st with settled := some o }

/-- The timeout rejection message built at line 176 of the source. -/
def timeoutMsg (t : Nat) : String := s!"Execution timed out after {t}ms"

/-- One event step of the `execute` promise executor. -/
def execStep (timeout : Nat) (st : ExecState) (ev : PSEvent) : ExecState :=
  match ev with
  | PSEvent.outData s => { st with outBuf := st.outBuf ++ s }
  | PSEvent.errData s => { st with errBuf := st.errBuf ++ s }
  | PSEvent.timeoutFire =>
    if st.timerActive then
      settleWith { st with procAlive := false, timerActive := false }
        (PSOutcome.rejected (timeoutMsg timeout))
    else st
  | PSEvent.closed code =>
    settleWith { st with timerActive := false, procAlive := false }
      (closeHandler st.outBuf st.errBuf code)
  | PSEvent.spawnErr m =>
    settleWith { st with timerActive := false } (PSOutcome.rejected m)

/-- Run one invocation over the delivered event sequence. -/
def runExec (timeout : Nat) (evs : List PSEvent) : ExecState :=
  evs.foldl (execStep timeout) initExecState

/-! ## Typed-parameter serialization (`executeRemoteScript`, lines 96-147) -/

/-- JS parameter values accepted by the serialization switch. -/
inductive PVal : Type where
  | pbool (b : Bool) : PVal
  | pnum (n : Int) : PVal
  | parr (xs : List String) : PVal
  | pstr (s : String) : PVal

/-- PowerShell single-quote escaping `.replace(/'/g, "''")` on characters. -/
def escQL : List Char → List Char
  | [] => []
  | c :: cs => if c = '\'' then '\'' :: '\'' :: escQL cs else c :: escQL cs

/-- PowerShell single-quote escaping on strings. -/
def escapeQuotes (s : String) : String := String.mk (escQL s.data)

/-- One `$key = value` declaration, exactly as the source's `map` arm
builds it: booleans as `$true`/`$false`, arrays as `@('a','b')` with the
elements joined raw (no per-element escaping in the source), numbers raw,
and strings single-quoted with quotes doubled. -/
def serializeParam (key : String) (v : PVal) : String :=
  match v with
  | PVal.pbool b => "$" ++ key ++ " = $" ++ (if b then "true" else "false")
  | PVal.parr xs => "$" ++ key ++ " = @('" ++ String.intercalate "','" xs ++ "')"
  | PVal.pnum n => "$" ++ key ++ " = " ++ String.mk (intChars n)
  | PVal.pstr s => "$" ++ key ++ " = '" ++ escapeQuotes s ++ "'"

/-- The joined parameter block (`.join('; ')`). -/
def paramDeclarations (ps : List (String × PVal)) : String :=
  String.intercalate "; " (ps.map (fun p => serializeParam p.1 p.2))

/-- PowerShell single-quoted literal scanner: starting after an opening
quote, consume the literal (doubled quotes are literal quotes), returning
the literal's content and everything after the closing quote — the
characters PowerShell would treat as code, not as string content. -/
def psScanLit : List Char → Option (List Char × List Char)
  | [] => none
  | c :: cs =>
    if c = '\'' then
      match cs with
      | '\'' :: cs2 =>
        (match psScanLit cs2 with
         | some (content, rest) => some ('\'' :: content, rest)
         | none => none)
      | _ => some ([], cs)
    else
      match psScanLit cs with
      | some (content, rest) => some (c :: content, rest)
      | none => none

/-- The remote execution command assembled by `executeRemoteScript`
(lines 114-144): the credential is spliced into the command text in plain
text (quote-doubled), along with the parameter block and script body.
Whitespace and comments of the template are elided; the order and content
of the interpolated pieces are preserved. -/
def buildRemoteCommand (username password resolvedTarget paramDecls scriptContent : String) :
    String :=
  "$ErrorActionPreference = 'Stop'\n"
  ++ "$securePassword = ConvertTo-SecureString '" ++ escapeQuotes password
  ++ "' -AsPlainText -Force\n"
  ++ "$credential = New-Object System.Management.Automation.PSCredential('"
  ++ username ++ "', $securePassword)\n"
  ++ "try \x7b\n$result = Invoke-Command -ComputerName '" ++ resolvedTarget
  ++ "' -Credential $credential -ScriptBlock \x7b\n" ++ paramDecls ++ "\n\n"
  ++ scriptContent ++ "\n\x7d\n"
  ++ "@\x7b Success = $true; Data = $result \x7d | ConvertTo-Json -Depth 10 -Compress\n"
  ++ "\x7d catch \x7b\n@\x7b Success = $false; Error = $_.Exception.Message;"
  ++ " Details = $_.Exception.ToString() \x7d | ConvertTo-Json -Compress\n\x7d"

/-! ## Target Directory (`resolveTarget`, two implementations) -/

structure TargetRec : Type where
  ip : String

structure TargetsConfig : Type where
  targets : List (String × TargetRec)
  aliases : List (String × String)

/-- The IP test `/^\d\x7b1,3\x7d\.\d\x7b1,3\x7d\.\d\x7b1,3\x7d\.\d\x7b1,3\x7d$/`:
four dot-separated groups of one to three digits. -/
def isIpForm (s : String) : Bool :=
  (splitDots s.data).length == 4 &&
    (splitDots s.data).all
      (fun g => (1 ≤ g.length && g.length ≤ 3) && g.all isDigitCh)

/-- `powershellService.resolveTarget` (src/unnamed/part_003, lines 47-71):
IP passthrough, then alias substitution (lower-cased key), then target
name lookup, then unchanged fallback. -/
def resolveTarget (cfg : TargetsConfig) (target : String) : String :=
  if isIpForm target then target
  else
    let t1 := match lookupS cfg.aliases (toLowerStr target) with
      | some name => name
      | none => target
    match lookupS cfg.targets t1 with
    | some r => r.ip
    | none => t1

/-- `incidentService.resolveTarget` (src/src/services/incidentService.js,
lines 41-54): same steps but with no IP-form short-circuit. -/
def resolveTargetInc (cfg : TargetsConfig) (target : String) : String :=
  let t1 := match lookupS cfg.aliases (toLowerStr target) with
    | some name => name
    | none => target
  match lookupS cfg.targets t1 with
  | some r => r.ip
  | none => t1

/-! ## Authorization Gate (`authMiddleware.checkPermission`) -/

structure RoleEntry : Type where
  permissions : List String

structure RolesConfig : Type where
  roles : List (String × RoleEntry)
  users : List (String × String)
  defaultRole : String
  requireAuthentication : Bool

/-- `getUserRole` (lines 45-55): assigned role, else
`config.defaultRole || 'SOC_TIER1'`. -/
def getUserRole (cfg : RolesConfig) (userId : String) : String :=
  match lookupS cfg.users userId with
  | some r => r
  | none => strOr cfg.defaultRole "SOC_TIER1"

/-- `getRolePermissions` (lines 62-70): the role's permission list, empty
for an unknown role. -/
def getRolePermissions (cfg : RolesConfig) (roleName : String) : List String :=
  match lookupS cfg.roles roleName with
  | some e => e.permissions
  | none => []

/-- `checkPermission` (lines 78-100): permissive when authentication is
not required, else membership of the action in the resolved role's
permission list. -/
def checkPermission (cfg : RolesConfig) (userId action : String) : Bool :=
  if !cfg.requireAuthentication then true
  else (getRolePermissions cfg (getUserRole cfg userId)).contains action

/-! ## Incident Correlator (`incidentService`, in-memory store)

Identifier generation is random in the source (`generateIncidentId`); the
identifier and every timestamp (`new Date().toISOString()`) enter the
model as arguments. -/

structure Incident : Type where
  id : String
  itype : String
  target : String
  status : String
  createdBy : String
  createdByName : String
  createdAt : String
  actions : List (String × String)
  notes : List (String × String)
  updatedAt : Option String
  closedAt : Option String
  closedBy : Option String
  resolution : Option String

/-- The `activeIncidents` map. -/
def IncStore : Type := List (String × Incident)

/-- `Map.set`: replace an existing binding or append a new one. -/
def setStore : IncStore → String → Incident → IncStore
  | [], id, inc => [(id, inc)]
  | (k, v) :: tl, id, inc =>
    if k = id then (id, inc) :: tl else (k, v) :: setStore tl id inc

/-- `createIncident` (lines 108-125). -/
def createIncident (st : IncStore) (id ty tgt userId userName now : String) :
    Incident × IncStore :=
  let inc : Incident :=
    { id := id, itype := ty, target := tgt, status := "OPEN",
      createdBy := userId, createdByName := userName, createdAt := now,
      actions := [], notes := [], updatedAt := none, closedAt := none,
      closedBy := none, resolution := none }
  (inc, setStore st id inc)

/-- `addIncidentAction` (lines 170-183): `null` for an unknown id, else
push the action with a timestamp. -/
def addIncidentAction (st : IncStore) (id action now : String) :
    Option Incident × IncStore :=
  match lookupS st id with
  | none => (none, st)
  | some inc =>
    let inc2 := { inc with actions := inc.actions ++ [(action, now)] }
    (some inc2, setStore st id inc2)

/-- `closeIncident` (lines 223-237): `null` for an unknown id; otherwise
unconditionally sets status CLOSED and overwrites the close metadata —
there is no check that the incident is still OPEN. -/
def closeIncident (st : IncStore) (id resolution closedBy now : String) :
    Option Incident × IncStore :=
  match lookupS st id with
  | none => (none, st)
  | some inc =>
    let inc2 := { inc with
      status := "CLOSED",
      closedAt := some now,
      closedBy := some closedBy,
      resolution := some resolution }
    (some inc2, setStore st id inc2)

/-! ## Audit Ledger (`auditService.query`, lines 99-159)

The store argument is `none` when the audit file does not exist or
reading it throws (both return `[]` in the source); `some content`
is the file text.  `new Date(...)` is an external JS built-in: it enters
the model as the abstract key function `dateVal` (applied to the
`timestamp` property, `none` modelling a missing one). -/

structure AuditFilters : Type where
  action : Option String
  userId : Option String
  target : Option String
  startDate : Option String
  endDate : Option String
  status : Option String
  limit : Option Int

/-- No filters. -/
def noFilters : AuditFilters :=
  { action := none, userId := none, target := none, startDate := none,
    endDate := none, status := none, limit := none }

/-- `content.trim().split('\n').filter(line => line)`. -/
def auditLines (content : String) : List (List Char) :=
  (splitNl (trimL content.data)).filter (fun l => !l.isEmpty)

/-- Equality of a string-valued property with a filter string (`===` on a
possibly missing, possibly non-string property is false). -/
def fieldEqStr (e : JVal) (key s : String) : Bool :=
  match objField e key with
  | some (JVal.jstr t) => t == s
  | _ => false

/-- `e.user?.id === filters.userId`. -/
def userIdEq (e : JVal) (s : String) : Bool :=
  match objField e "user" with
  | some u => fieldEqStr u "id" s
  | none => false

/-- `new Date(e.timestamp)` as an abstract key. -/
def tsKey (dateVal : Option JVal → Int) (e : JVal) : Int :=
  dateVal (objField e "timestamp")

/-- Stable descending insertion (JS `Array.prototype.sort` is stable):
skip only the strictly greater keys, so equal keys keep their order. -/
def insertDesc (k : JVal → Int) (e : JVal) : List JVal → List JVal
  | [] => [e]
  | x :: xs => if k e < k x then x :: insertDesc k e xs else e :: x :: xs

/-- Sort descending by key. -/
def sortDesc (k : JVal → Int) : List JVal → List JVal
  | [] => []
  | x :: xs => insertDesc k x (sortDesc k xs)

/-- Apply one optional conjunctive filter. -/
def applyOpt {β : Type} (o : Option β) (f : β → List JVal → List JVal)
    (l : List JVal) : List JVal :=
  match o with
  | none => l
  | some b => f b l

/-- `auditService.query`: parse each line (skipping lines that fail to
parse), apply the filters conjunctively, sort by timestamp descending,
and apply a positive limit. -/
def queryAudit (dateVal : Option JVal → Int) (store : Option String)
    (f : AuditFilters) : List JVal :=
  match store with
  | none => []
  | some content =>
    let entries0 := (auditLines content).filterMap jparseL
    let e1 := applyOpt f.action (fun a l => l.filter (fun e => fieldEqStr e "action" a)) entries0
    let e2 := applyOpt f.userId (fun a l => l.filter (fun e => userIdEq e a)) e1
    let e3 := applyOpt f.target (fun a l => l.filter (fun e => fieldEqStr e "target" a)) e2
    let e4 := applyOpt f.startDate
      (fun a l => l.filter (fun e => dateVal (some (JVal.jstr a)) ≤ tsKey dateVal e)) e3
    let e5 := applyOpt f.endDate
      (fun a l => l.filter (fun e => tsKey dateVal e ≤ dateVal (some (JVal.jstr a)))) e4
    let e6 := applyOpt f.status (fun a l => l.filter (fun e => fieldEqStr e "status" a)) e5
    let sorted := sortDesc (tsKey dateVal) e6
    match f.limit with
    | some l => if 0 < l then sorted.take l.toNat else sorted
    | none => sorted

/-! ## Command handlers and the audit invariant (src/unnamed/part_004)

Each handler is modelled as the ordered list of externally visible events
it produces: chat responses, remote invocations, audit appends.  The
engine outcome enters as an argument (`Except` error/result). -/

inductive BotEv : Type where
  | responded (tag : String) : BotEv
  | invoked (script target : String) : BotEv
  | audited (action target status : String) : BotEv

/-- Number of audit appends naming the given target. -/
def auditCount (t : String) (evs : List BotEv) : Nat :=
  evs.countP (fun ev =>
    match ev with
    | BotEv.audited _ t2 _ => t2 == t
    | _ => false)

/-- Number of remote invocations against the given target. -/
def invokedCount (t : String) (evs : List BotEv) : Nat :=
  evs.countP (fun ev =>
    match ev with
    | BotEv.invoked _ t2 => t2 == t
    | _ => false)

/-- `handleStatus` (src/unnamed/part_004, lines 664-726): usage message
without a target; denial without invocation when the permission check
fails; otherwise loading response, remote invocation, an audit append
(SUCCESS or FAILED) and only then the result/error response. -/
def handleStatusEvents (cfg : RolesConfig) (userId : String)
    (target : Option String) (engine : Except String JVal) : List BotEv :=
  match target with
  | none => [BotEv.responded "missing_target"]
  | some t =>
    if !(checkPermission cfg userId "status") then
      [BotEv.responded "access_denied"]
    else
      [BotEv.responded "loading", BotEv.invoked "Get-SystemInfo.ps1" t] ++
        match engine with
        | Except.ok _ => [BotEv.audited "STATUS" t "SUCCESS", BotEv.responded "status_result"]
        | Except.error _ => [BotEv.audited "STATUS" t "FAILED", BotEv.responded "status_error"]

/-- The `quick_collect` button handler (src/unnamed/part_004, lines
384-427): loading response, remote invocation, then the result or error
response — with no call to `auditService.log` on either path. -/
def quickCollectEvents (target : String) (engine : Except String JVal) : List BotEv :=
  [BotEv.responded "loading", BotEv.invoked "Collect-Logs.ps1" target] ++
    match engine with
    | Except.ok _ => [BotEv.responded "collect_result"]
    | Except.error _ => [BotEv.responded "collect_error"]

/-! ## Claim theorems -/

/-- The `Invoke-Command` transport envelope around a payload. -/
def mkTransportEnvelope (V : JVal) (p rid : String) : JVal :=
  JVal.jobj (JObj.cons "value" V (JObj.cons "PSComputerName" (JVal.jstr p)
    (JObj.cons "RunspaceId" (JVal.jstr rid) JObj.nil)))

/-- The success envelope around a transport-wrapped payload. -/
def mkSuccessEnvelope (V : JVal) (p rid : String) : JVal :=
  JVal.jobj (JObj.cons "Success" (JVal.jbool true)
    (JObj.cons "Data" (mkTransportEnvelope V p rid) JObj.nil))

/-- Scenario C raw stdout. -/
def scenarioCStdout : String :=
  "\x7b\"Success\":true,\"Data\":\"\x7b\\\"EventCount\\\":5\x7d\"\x7d"

/-- C4: feeding the normalizer a raw output that wraps a canonical value V
once in a transport envelope, then in a success envelope, re-encoded as a
JSON string, yields V back; in particular the Scenario C raw stdout
normalizes to the structured value with EventCount 5. -/
theorem c4_normalize_round_trip :
    (∀ (V : JVal) (p rid stderr : String) (code : Int), isCanonical V = true →
      closeHandler (printJ (mkSuccessEnvelope V p rid)) stderr code
        = PSOutcome.resolved (some V))
    ∧ closeHandler scenarioCStdout "" 0
        = PSOutcome.resolved (some (JVal.jobj (JObj.cons "EventCount" (JVal.jnum 5) JObj.nil))) := by
  constructor
  · intro V p rid stderr code hV
    obtain ⟨i, hi⟩ := printObjL_ends (JObj.cons "Success" (JVal.jbool true)
      (JObj.cons "Data" (mkTransportEnvelope V p rid) JObj.nil))
    have hshape : printJL (mkSuccessEnvelope V p rid) = '{' :: (i ++ ['}']) := by
      show '{' :: printObjL (JObj.cons "Success" (JVal.jbool true)
        (JObj.cons "Data" (mkTransportEnvelope V p rid) JObj.nil)) = '{' :: (i ++ ['}'])
      rw [hi]
    have htrim : trimL (printJ (mkSuccessEnvelope V p rid)).data
        = printJL (mkSuccessEnvelope V p rid) := by
      show trimL (printJL (mkSuccessEnvelope V p rid))
          = printJL (mkSuccessEnvelope V p rid)
      rw [hshape]
      exact trimL_sandwich i (by decide) (by decide)
    have hne : (printJL (mkSuccessEnvelope V p rid)).isEmpty = false := by
      rw [hshape]
      rfl
    have hjm : jsonMatchL (printJL (mkSuccessEnvelope V p rid))
        = some (printJL (mkSuccessEnvelope V p rid)) := by
      rw [hshape]
      exact jsonMatchL_sandwich i
    have hp : jparseL (printJL (mkSuccessEnvelope V p rid))
        = some (mkSuccessEnvelope V p rid) := jparseL_print _
    have hsucc : truthy (objField (mkSuccessEnvelope V p rid) "Success") = true := rfl
    rw [closeHandler_json htrim hne hjm hp hsucc]
    have hdataf : objField (mkSuccessEnvelope V p rid) "Data"
        = some (mkTransportEnvelope V p rid) := rfl
    rw [hdataf]
    show PSOutcome.resolved (some (reparseLoop (unwrapPS (mkTransportEnvelope V p rid))))
        = PSOutcome.resolved (some V)
    have hgf1 : getField (JObj.cons "value" V (JObj.cons "PSComputerName" (JVal.jstr p)
        (JObj.cons "RunspaceId" (JVal.jstr rid) JObj.nil))) "value" = some V := rfl
    have hgf2 : getField (JObj.cons "value" V (JObj.cons "PSComputerName" (JVal.jstr p)
        (JObj.cons "RunspaceId" (JVal.jstr rid) JObj.nil))) "PSComputerName"
        = some (JVal.jstr p) := rfl
    have hu : unwrapPS (mkTransportEnvelope V p rid) = unwrapPS V := unwrapPS_env hgf1 hgf2
    rw [hu, unwrapPS_nonenv (isCanonical_not_env hV), reparseLoop_canonical hV]
  · rfl

/-- C4 witness: the round trip applied at the concrete payload
with EventCount 5, host WS01, runspace r-1. -/
theorem c4_normalize_round_trip_witness :
    isCanonical (JVal.jobj (JObj.cons "EventCount" (JVal.jnum 5) JObj.nil)) = true
    ∧ closeHandler
        (printJ (mkSuccessEnvelope
          (JVal.jobj (JObj.cons "EventCount" (JVal.jnum 5) JObj.nil)) "WS01" "r-1"))
        "" 0
      = PSOutcome.resolved
          (some (JVal.jobj (JObj.cons "EventCount" (JVal.jnum 5) JObj.nil))) :=
  ⟨rfl, c4_normalize_round_trip.1
    (JVal.jobj (JObj.cons "EventCount" (JVal.jnum 5) JObj.nil)) "WS01" "r-1" "" 0 rfl⟩

/-- C2: the transport-envelope unwrap loop of the Result Normalizer has no
fixed iteration bound — on a payload nested B deep the loop runs exactly B
iterations for every B, so on the 9-deep payload it already exceeds the
bound of 8 the specification mandates (the loop still terminates, doing
work proportional to the nesting depth of the parsed payload). -/
theorem c2_unwrap_loop_unbounded :
    unwrapCount (nestEnv 9 (JVal.jnum 1)) = 9
    ∧ ∀ B : Nat, unwrapCount (nestEnv B (JVal.jnum 1)) = B := by
  constructor
  · rfl
  · exact unwrapCount_nestEnv (JVal.jnum 1) rfl

theorem psScanLit_cons (c : Char) (cs : List Char) :
    psScanLit (c :: cs) =
      (if c = '\'' then
        (match cs with
         | '\'' :: cs2 =>
           (match psScanLit cs2 with
            | some (content, rest) => some ('\'' :: content, rest)
            | none => none)
         | _ => some ([], cs))
      else
        (match psScanLit cs with
         | some (content, rest) => some (c :: content, rest)
         | none => none)) := by
  conv_lhs => unfold psScanLit

theorem psScanLit_escQL (cs : List Char) :
    psScanLit (escQL cs ++ ['\'']) = some (cs, []) := by
  induction cs with
  | nil =>
    show psScanLit ['\''] = some ([], [])
    rfl
  | cons c cs ih =>
    by_cases hc : c = '\''
    · subst hc
      have he : escQL ('\'' :: cs) ++ ['\'']
          = '\'' :: ('\'' :: (escQL cs ++ ['\''])) := by
        simp [escQL]
      rw [he]
      show (match psScanLit (escQL cs ++ ['\'']) with
            | some (content, rest) => some ('\'' :: content, rest)
            | none => none) = some ('\'' :: cs, [])
      rw [ih]
    · have he : escQL (c :: cs) ++ ['\''] = c :: (escQL cs ++ ['\'']) := by
        simp [escQL, hc]
      rw [he, psScanLit_cons, if_neg hc]
      simp only [ih]

/-- C3: the typed-parameter serialization quote-escapes every scalar
string value (the produced single-quoted literal scans back to exactly the
value, with nothing leaking outside the quotes), but array elements are
comma-joined with NO per-element escaping, so an element containing a
quote terminates its quoted literal: on the AllowedHosts element
`10.0.0.1'); whoami #` the literal closes after `10.0.0.1` and
`); whoami #` lands outside any quoted literal, in executable position. -/
theorem c3_param_serialization_escaping :
    (∀ (key s : String),
      psScanLit ((escapeQuotes s).data ++ ['\'']) = some (s.data, [])
      ∧ serializeParam key (PVal.pstr s) = "$" ++ key ++ " = '" ++ escapeQuotes s ++ "'")
    ∧ serializeParam "AllowedHosts" (PVal.parr ["10.0.0.1'); whoami #"])
        = "$AllowedHosts = @('10.0.0.1'); whoami #')"
    ∧ psScanLit ("10.0.0.1'); whoami #".data ++ ['\'', ')'])
        = some ("10.0.0.1".data, "); whoami #')".data) := by
  refine ⟨fun key s => ⟨?_, rfl⟩, rfl, rfl⟩
  show psScanLit (escQL s.data ++ ['\'']) = some (s.data, [])
  exact psScanLit_escQL s.data

theorem foldl_data_events (t : Nat) :
    ∀ (pre : List PSEvent) (st : ExecState), pre.all isDataEv = true →
      (pre.foldl (execStep t) st).timerActive = st.timerActive
      ∧ (pre.foldl (execStep t) st).settled = st.settled
      ∧ (pre.foldl (execStep t) st).procAlive = st.procAlive := by
  intro pre
  induction pre with
  | nil => intro st _; exact ⟨rfl, rfl, rfl⟩
  | cons ev evs ih =>
    intro st hall
    have h1 : isDataEv ev = true := by
      simp only [List.all_cons, Bool.and_eq_true] at hall
      exact hall.1
    have h2 : evs.all isDataEv = true := by
      simp only [List.all_cons, Bool.and_eq_true] at hall
      exact hall.2
    have hstep : (execStep t st ev).timerActive = st.timerActive
        ∧ (execStep t st ev).settled = st.settled
        ∧ (execStep t st ev).procAlive = st.procAlive := by
      cases ev with
      | outData s => exact ⟨rfl, rfl, rfl⟩
      | errData s => exact ⟨rfl, rfl, rfl⟩
      | timeoutFire => simp [isDataEv] at h1
      | closed code => simp [isDataEv] at h1
      | spawnErr m => simp [isDataEv] at h1
    rw [List.foldl_cons]
    have hrec := ih (execStep t st ev) h2
    rw [hrec.1, hrec.2.1, hrec.2.2, hstep.1, hstep.2.1, hstep.2.2]
    exact ⟨rfl, rfl, rfl⟩

theorem foldl_settled_sticky (t : Nat) :
    ∀ (post : List PSEvent) (st : ExecState), st.settled.isSome = true →
      st.procAlive = false →
      (post.foldl (execStep t) st).settled = st.settled
      ∧ (post.foldl (execStep t) st).procAlive = false := by
  intro post
  induction post with
  | nil => intro st _ h2; exact ⟨rfl, h2⟩
  | cons ev evs ih =>
    intro st h1 h2
    have hstep : (execStep t st ev).settled = st.settled
        ∧ (execStep t st ev).procAlive = false := by
      cases ev with
      | outData s => exact ⟨rfl, h2⟩
      | errData s => exact ⟨rfl, h2⟩
      | timeoutFire =>
        by_cases ht : st.timerActive = true
        · have he : execStep t st PSEvent.timeoutFire
              = settleWith { st with procAlive := false, timerActive := false }
                (PSOutcome.rejected (timeoutMsg t)) := by
            show (if st.timerActive = true then settleWith
                { st with procAlive := false, timerActive := false }
                (PSOutcome.rejected (timeoutMsg t)) else st) = _
            rw [if_pos ht]
          have he2 : settleWith { st with procAlive := false, timerActive := false }
              (PSOutcome.rejected (timeoutMsg t))
              = { st with procAlive := false, timerActive := false } := by
            unfold settleWith
            rw [if_pos h1]
          rw [he, he2]
          exact ⟨rfl, rfl⟩
        · have he : execStep t st PSEvent.timeoutFire = st := by
            show (if st.timerActive = true then settleWith
                { st with procAlive := false, timerActive := false }
                (PSOutcome.rejected (timeoutMsg t)) else st) = st
            rw [if_neg ht]
          rw [he]
          exact ⟨rfl, h2⟩
      | closed code =>
        have he : execStep t st (PSEvent.closed code)
            = { st with timerActive := false, procAlive := false } := by
          show settleWith { st with timerActive := false, procAlive := false }
              (closeHandler st.outBuf st.errBuf code) = _
          unfold settleWith
          rw [if_pos h1]
        rw [he]
        exact ⟨rfl, rfl⟩
      | spawnErr m =>
        have he : execStep t st (PSEvent.spawnErr m)
            = { st with timerActive := false } := by
          show settleWith { st with timerActive := false } (PSOutcome.rejected m) = _
          unfold settleWith
          rw [if_pos h1]
        rw [he]
        exact ⟨rfl, h2⟩
    rw [List.foldl_cons]
    have hrec := ih (execStep t st ev) (by rw [hstep.1]; exact h1) hstep.2
    rw [hrec.1, hstep.1]
    exact ⟨rfl, hrec.2⟩

/-- C5: whenever the timeout timer fires before the child's close (or a
spawn error) is delivered — i.e. after only data events — the invocation
settles with the timeout rejection built at source line 176, the kill is
sent, and the child process is no longer running in the final state, no
matter what events arrive afterwards (a late close cannot re-settle the
promise). -/
theorem c5_timeout_forced_termination (t : Nat) (pre post : List PSEvent)
    (hpre : pre.all isDataEv = true) :
    (runExec t (pre ++ PSEvent.timeoutFire :: post)).settled
        = some (PSOutcome.rejected (timeoutMsg t))
    ∧ (runExec t (pre ++ PSEvent.timeoutFire :: post)).procAlive = false := by
  unfold runExec
  rw [List.foldl_append, List.foldl_cons]
  have h1 := foldl_data_events t pre initExecState hpre
  have htimer : (pre.foldl (execStep t) initExecState).timerActive = true := by
    rw [h1.1]
    rfl
  have hsettled : (pre.foldl (execStep t) initExecState).settled = none := by
    rw [h1.2.1]
    rfl
  have hstep : execStep t (pre.foldl (execStep t) initExecState) PSEvent.timeoutFire
      = { pre.foldl (execStep t) initExecState with
          procAlive := false,
          timerActive := false,
          settled := some (PSOutcome.rejected (timeoutMsg t)) } := by
    show (if (pre.foldl (execStep t) initExecState).timerActive = true then
        settleWith { pre.foldl (execStep t) initExecState with
          procAlive := false, timerActive := false }
          (PSOutcome.rejected (timeoutMsg t))
      else pre.foldl (execStep t) initExecState) = _
    rw [if_pos htimer]
    unfold settleWith
    rw [if_neg (show ¬((pre.foldl (execStep t) initExecState).settled.isSome = true)
      from by rw [hsettled]; simp)]
  rw [hstep]
  have hfin := foldl_settled_sticky t post
    { pre.foldl (execStep t) initExecState with
      procAlive := false,
      timerActive := false,
      settled := some (PSOutcome.rejected (timeoutMsg t)) } rfl rfl
  rw [hfin.1]
  exact ⟨rfl, hfin.2⟩

/-- C5 witness: a concrete run — one stdout chunk, then the timer fires,
then the late close event arrives and is ignored. -/
theorem c5_timeout_forced_termination_witness :
    (runExec 300000 ([PSEvent.outData "partial"] ++ PSEvent.timeoutFire
        :: [PSEvent.closed 0])).settled
      = some (PSOutcome.rejected (timeoutMsg 300000))
    ∧ (runExec 300000 ([PSEvent.outData "partial"] ++ PSEvent.timeoutFire
        :: [PSEvent.closed 0])).procAlive = false :=
  c5_timeout_forced_termination 300000 [PSEvent.outData "partial"]
    [PSEvent.closed 0] rfl

theorem escQL_id {cs : List Char} (h : ∀ c ∈ cs, c ≠ '\'') : escQL cs = cs := by
  induction cs with
  | nil => rfl
  | cons c cs ih =>
    have hc : c ≠ '\'' := h c (List.mem_cons_self _ _)
    have hr := ih (fun d hd => h d (List.mem_cons_of_mem _ hd))
    simp [escQL, hc, hr]

theorem headMatches_self (n post : List Char) : headMatches n (n ++ post) = true := by
  induction n with
  | nil => rfl
  | cons c cs ih => simp [headMatches, ih]

theorem containsSub_self_prefix (n post : List Char) :
    containsSub n (n ++ post) = true := by
  cases n with
  | nil =>
    show containsSub [] post = true
    cases post with
    | nil => rfl
    | cons c cs => rfl
  | cons c cs =>
    have hh : headMatches (c :: cs) (c :: (cs ++ post)) = true :=
      headMatches_self (c :: cs) post
    show (headMatches (c :: cs) (c :: (cs ++ post))
        || containsSub (c :: cs) (cs ++ post)) = true
    rw [hh]
    rfl

theorem containsSub_append_left (n pre hay : List Char)
    (h : containsSub n hay = true) : containsSub n (pre ++ hay) = true := by
  induction pre with
  | nil => exact h
  | cons p pre ih =>
    show (headMatches n (p :: (pre ++ hay)) || containsSub n (pre ++ hay)) = true
    rw [ih]
    exact Bool.or_true _

/-- The stderr of a PowerShell parse error echoing the command line that
embeds the credential — the realistic leak vector. -/
def c6LeakStderr : String :=
  "At line:2 char:44 + $securePassword = ConvertTo-SecureString 'hunter2' "
  ++ "-AsPlainText -Force + CategoryInfo : ParserError"

/-- C6: the engine's failure messages are NOT scrubbed of the credential:
the rejection for a failed run with empty stdout carries stderr verbatim,
the raw command embeds the (quote-doubled) password in plain text, and on
a concrete stderr that echoes the command line the surfaced message
contains the password `hunter2`. -/
theorem c6_credential_in_failure_message :
    (∀ (stderr : String) (code : Int), stderr ≠ "" → ¬(code = 0) →
      closeHandler "" stderr code = PSOutcome.rejected stderr)
    ∧ (∀ username password target pd sc : String,
        (∀ c ∈ password.data, c ≠ '\'') →
        containsSub password.data
          (buildRemoteCommand username password target pd sc).data = true)
    ∧ closeHandler "" c6LeakStderr 1 = PSOutcome.rejected c6LeakStderr
    ∧ containsSub "hunter2".data c6LeakStderr.data = true := by
  refine ⟨?_, ?_, ?_, ?_⟩
  · intro stderr code hs hc
    unfold closeHandler
    rw [if_pos (show (trimL ("" : String).data).isEmpty = true from rfl),
      if_neg hc]
    unfold strOr
    rw [if_neg hs]
  · intro username password target pd sc h
    have hesc : escapeQuotes password = password := by
      unfold escapeQuotes
      rw [escQL_id h]
    unfold buildRemoteCommand
    rw [hesc]
    simp only [String.data_append, List.append_assoc]
    refine containsSub_append_left _ _ _ (containsSub_append_left _ _ _ ?_)
    exact containsSub_self_prefix _ _
  · rfl
  · rfl

/-- C6 witness: the passthrough applied at a concrete failed run, and the
credential-embedding fact at a concrete configuration. -/
theorem c6_credential_in_failure_message_witness :
    closeHandler "" "boom" 1 = PSOutcome.rejected "boom"
    ∧ containsSub "hunter2".data
        (buildRemoteCommand "ir-svc" "hunter2" "10.0.0.5" "$DaysBack = 7"
          "Get-EventLog").data = true :=
  ⟨c6_credential_in_failure_message.1 "boom" 1 (by decide) (by decide),
    c6_credential_in_failure_message.2.1 "ir-svc" "hunter2" "10.0.0.5" "$DaysBack = 7"
      "Get-EventLog" (by decide)⟩

/-- A configuration whose alias table keys an address-form identifier. -/
def cfgAliasIp : TargetsConfig :=
  { targets := [("vm1", { ip := "10.9.9.9" })], aliases := [("10.0.0.5", "vm1")] }

/-- C7 counterexample: the incident-service resolver (cited by the claim)
has no address-form short-circuit, so with an alias keyed by the
address-form identifier `10.0.0.5` it resolves to `10.9.9.9` instead of
returning the address unchanged — refuting `resolve(I) == I` for all
address-form `I` as stated over both cited implementations. -/
theorem c7_counterexample :
    isIpForm "10.0.0.5" = true
    ∧ resolveTargetInc cfgAliasIp "10.0.0.5" = "10.9.9.9"
    ∧ ("10.9.9.9" = "10.0.0.5" → False) := by
  refine ⟨by decide, rfl, by decide⟩

/-- C7 (amended): the PowerShell-service resolver follows the four-step
order exactly — address form returned unchanged, then alias substitution
(lower-cased key), then target-name lookup, then unchanged fallback; the
incident-service resolver performs the same alias/name/fallback steps but
omits step 1, so for it the address-form passthrough additionally needs
the tables not to capture the identifier. -/
theorem c7_resolution_order :
    (∀ cfg t, isIpForm t = true → resolveTarget cfg t = t)
    ∧ (∀ cfg t n r, isIpForm t = false →
        lookupS cfg.aliases (toLowerStr t) = some n →
        lookupS cfg.targets n = some r → resolveTarget cfg t = r.ip)
    ∧ (∀ cfg t r, isIpForm t = false →
        lookupS cfg.aliases (toLowerStr t) = none →
        lookupS cfg.targets t = some r → resolveTarget cfg t = r.ip)
    ∧ (∀ cfg t, isIpForm t = false →
        lookupS cfg.aliases (toLowerStr t) = none →
        lookupS cfg.targets t = none → resolveTarget cfg t = t)
    ∧ (∀ cfg t n r, lookupS cfg.aliases (toLowerStr t) = some n →
        lookupS cfg.targets n = some r → resolveTargetInc cfg t = r.ip)
    ∧ (∀ cfg t, lookupS cfg.aliases (toLowerStr t) = none →
        lookupS cfg.targets t = none → resolveTargetInc cfg t = t) := by
  refine ⟨?_, ?_, ?_, ?_, ?_, ?_⟩
  · intro cfg t h
    unfold resolveTarget
    rw [if_pos h]
  · intro cfg t n r h ha hb
    unfold resolveTarget
    rw [if_neg (by simp [h])]
    dsimp only
    simp only [ha, hb]
  · intro cfg t r h ha hb
    unfold resolveTarget
    rw [if_neg (by simp [h])]
    dsimp only
    simp only [ha, hb]
  · intro cfg t h ha hb
    unfold resolveTarget
    rw [if_neg (by simp [h])]
    dsimp only
    simp only [ha, hb]
  · intro cfg t n r ha hb
    unfold resolveTargetInc
    dsimp only
    simp only [ha, hb]
  · intro cfg t ha hb
    unfold resolveTargetInc
    dsimp only
    simp only [ha, hb]

/-- C7 witness: Scenario A (name lookup), an alias lookup and the
address-form passthrough at a concrete configuration. -/
theorem c7_resolution_order_witness :
    resolveTarget
      { targets := [("vm1", { ip := "10.0.0.5" })], aliases := [("web", "vm1")] }
      "vm1" = "10.0.0.5"
    ∧ resolveTarget
      { targets := [("vm1", { ip := "10.0.0.5" })], aliases := [("web", "vm1")] }
      "web" = "10.0.0.5"
    ∧ resolveTarget
      { targets := [("vm1", { ip := "10.0.0.5" })], aliases := [("web", "vm1")] }
      "10.1.2.3" = "10.1.2.3" :=
  ⟨c7_resolution_order.2.2.1
      { targets := [("vm1", { ip := "10.0.0.5" })], aliases := [("web", "vm1")] }
      "vm1" { ip := "10.0.0.5" } (by decide) rfl rfl,
    c7_resolution_order.2.1
      { targets := [("vm1", { ip := "10.0.0.5" })], aliases := [("web", "vm1")] }
      "web" "vm1" { ip := "10.0.0.5" } (by decide) rfl rfl,
    c7_resolution_order.1
      { targets := [("vm1", { ip := "10.0.0.5" })], aliases := [("web", "vm1")] }
      "10.1.2.3" (by decide)⟩

/-- C8: when the require-authentication flag is off the check allows every
actor and action; when it is on, it allows exactly the actions in the
permission set of the actor's role (the assigned role, or the configured
default role falling back to SOC_TIER1 when unset, as the source's
`config.defaultRole || 'SOC_TIER1'` reads).  The decision is a pure
function of the configuration snapshot and the inputs. -/
theorem c8_authorize_iff :
    (∀ cfg (u a : String), cfg.requireAuthentication = false →
      checkPermission cfg u a = true)
    ∧ (∀ cfg (u a : String), cfg.requireAuthentication = true →
      (checkPermission cfg u a = true ↔
        a ∈ getRolePermissions cfg (getUserRole cfg u))) := by
  constructor
  · intro cfg u a h
    unfold checkPermission
    rw [h]
    rfl
  · intro cfg u a h
    unfold checkPermission
    rw [h]
    show List.elem a (getRolePermissions cfg (getUserRole cfg u)) = true ↔ _
    exact List.elem_iff

/-- C8 witness: a config with authentication on (alice is SOC_TIER1,
which may read status but not isolate) and one with it off. -/
theorem c8_authorize_iff_witness :
    (checkPermission
      { roles := [("SOC_TIER1", { permissions := ["help", "status"] })],
        users := [("alice", "SOC_TIER1")], defaultRole := "SOC_TIER1",
        requireAuthentication := true } "alice" "status" = true ↔
      "status" ∈ getRolePermissions
        { roles := [("SOC_TIER1", { permissions := ["help", "status"] })],
          users := [("alice", "SOC_TIER1")], defaultRole := "SOC_TIER1",
          requireAuthentication := true }
        (getUserRole
          { roles := [("SOC_TIER1", { permissions := ["help", "status"] })],
            users := [("alice", "SOC_TIER1")], defaultRole := "SOC_TIER1",
            requireAuthentication := true } "alice"))
    ∧ checkPermission
      { roles := [], users := [], defaultRole := "SOC_TIER1",
        requireAuthentication := false } "anyone" "quarantine" = true :=
  ⟨c8_authorize_iff.2
      { roles := [("SOC_TIER1", { permissions := ["help", "status"] })],
        users := [("alice", "SOC_TIER1")], defaultRole := "SOC_TIER1",
        requireAuthentication := true } "alice" "status" rfl,
    c8_authorize_iff.1
      { roles := [], users := [], defaultRole := "SOC_TIER1",
        requireAuthentication := false } "anyone" "quarantine" rfl⟩

/-- Scenario E store after open and two appended actions. -/
def c9Store2 : IncStore :=
  (addIncidentAction
    (addIncidentAction
      ((createIncident [] "INC-1" "INVESTIGATION" "vm1" "U1" "alice" "t0").2)
      "INC-1" "QUARANTINE" "t1").2
    "INC-1" "COLLECT_LOGS" "t2").2

/-- First close of the scenario incident. -/
def c9FirstClose : Option Incident × IncStore :=
  closeIncident c9Store2 "INC-1" "contained" "alice" "t3"

/-- Second close of the already-CLOSED scenario incident. -/
def c9SecondClose : Option Incident × IncStore :=
  closeIncident c9FirstClose.2 "INC-1" "re-closed" "bob" "t4"

/-- C9 counterexample: after open, two actions and a close (status CLOSED,
two actions), a second `closeIncident` call does NOT signal a state error:
the only error signal in the source is the `null` return for an unknown
id, and here the call succeeds, returning the incident re-closed with the
second call's resolution overwriting the first. -/
theorem c9_counterexample :
    Option.map Incident.status c9FirstClose.1 = some "CLOSED"
    ∧ Option.map (fun i => i.actions.length) c9FirstClose.1 = some 2
    ∧ c9SecondClose.1.isSome = true
    ∧ Option.map Incident.resolution c9SecondClose.1 = some (some "re-closed")
    ∧ Option.map Incident.closedBy c9SecondClose.1 = some (some "bob") := by
  refine ⟨rfl, rfl, rfl, rfl, rfl⟩

/-- C9 (amended): for any incident opened and given two actions, close
moves OPEN to CLOSED with the action list still of length 2; a subsequent
close on the already-CLOSED incident succeeds silently — it returns the
incident (no error signal) with status still CLOSED and the close
metadata overwritten by the second call. -/
theorem c9_close_and_silent_reclose
    (tgt a1 a2 r1 r2 u1 u2 t0 t1 t2 t3 t4 : String) :
    (Option.map Incident.status
      (closeIncident
        (addIncidentAction
          (addIncidentAction
            ((createIncident [] "INC-1" "INVESTIGATION" tgt u1 u1 t0).2)
            "INC-1" a1 t1).2
          "INC-1" a2 t2).2 "INC-1" r1 u1 t3).1 = some "CLOSED")
    ∧ (Option.map (fun i => i.actions.length)
      (closeIncident
        (addIncidentAction
          (addIncidentAction
            ((createIncident [] "INC-1" "INVESTIGATION" tgt u1 u1 t0).2)
            "INC-1" a1 t1).2
          "INC-1" a2 t2).2 "INC-1" r1 u1 t3).1 = some 2)
    ∧ ((closeIncident
        (closeIncident
          (addIncidentAction
            (addIncidentAction
              ((createIncident [] "INC-1" "INVESTIGATION" tgt u1 u1 t0).2)
              "INC-1" a1 t1).2
            "INC-1" a2 t2).2 "INC-1" r1 u1 t3).2 "INC-1" r2 u2 t4).1.isSome = true)
    ∧ (Option.map Incident.status
      (closeIncident
        (closeIncident
          (addIncidentAction
            (addIncidentAction
              ((createIncident [] "INC-1" "INVESTIGATION" tgt u1 u1 t0).2)
              "INC-1" a1 t1).2
            "INC-1" a2 t2).2 "INC-1" r1 u1 t3).2 "INC-1" r2 u2 t4).1
        = some "CLOSED")
    ∧ (Option.map Incident.resolution
      (closeIncident
        (closeIncident
          (addIncidentAction
            (addIncidentAction
              ((createIncident [] "INC-1" "INVESTIGATION" tgt u1 u1 t0).2)
              "INC-1" a1 t1).2
            "INC-1" a2 t2).2 "INC-1" r1 u1 t3).2 "INC-1" r2 u2 t4).1
        = some (some r2)) := by
  refine ⟨rfl, rfl, rfl, rfl, rfl⟩

theorem mem_insertDesc (k : JVal → Int) (e a : JVal) :
    ∀ l : List JVal, a ∈ insertDesc k e l → a = e ∨ a ∈ l := by
  intro l
  induction l with
  | nil =>
    intro h
    rw [show insertDesc k e [] = [e] from rfl] at h
    exact Or.inl (List.mem_singleton.mp h)
  | cons x xs ih =>
    intro h
    rw [show insertDesc k e (x :: xs)
        = if k e < k x then x :: insertDesc k e xs else e :: x :: xs from rfl] at h
    by_cases hc : k e < k x
    · rw [if_pos hc] at h
      rcases List.mem_cons.mp h with h1 | h2
      · exact Or.inr (List.mem_cons.mpr (Or.inl h1))
      · rcases ih h2 with h3 | h3
        · exact Or.inl h3
        · exact Or.inr (List.mem_cons.mpr (Or.inr h3))
    · rw [if_neg hc] at h
      rcases List.mem_cons.mp h with h1 | h2
      · exact Or.inl h1
      · exact Or.inr h2

theorem mem_sortDesc (k : JVal → Int) (a : JVal) :
    ∀ l : List JVal, a ∈ sortDesc k l → a ∈ l := by
  intro l
  induction l with
  | nil =>
    intro h
    exact h
  | cons x xs ih =>
    intro h
    rw [show sortDesc k (x :: xs) = insertDesc k x (sortDesc k xs) from rfl] at h
    rcases mem_insertDesc k x a _ h with h1 | h2
    · exact List.mem_cons.mpr (Or.inl h1)
    · exact List.mem_cons.mpr (Or.inr (ih h2))

theorem mem_applyOpt_filter {β : Type} (o : Option β) (p : β → JVal → Bool)
    (l : List JVal) (a : JVal)
    (h : a ∈ applyOpt o (fun b l => l.filter (p b)) l) : a ∈ l := by
  cases o with
  | none => exact h
  | some b => exact List.mem_of_mem_filter h

/-- A store whose middle line is not valid JSON. -/
def c10Content : String :=
  "\x7b\"action\":\"STATUS\"\x7d\nnot json\n\x7b\"action\":\"KILL\"\x7d"

/-- The parsed first line of the store above. -/
def c10E0 : JVal := JVal.jobj (JObj.cons "action" (JVal.jstr "STATUS") JObj.nil)

/-- The parsed third line of the store above. -/
def c10E1 : JVal := JVal.jobj (JObj.cons "action" (JVal.jstr "KILL") JObj.nil)

/-- C10: the audit query never raises — a missing or unreadable store
yields `[]`; every returned entry is the parse of some stored line, so a
line that fails to parse is skipped rather than aborting the query; and
on a concrete store whose middle line is not JSON the two well-formed
lines are returned in order. The model `queryAudit` is a pure function
of the store, so it cannot modify it. -/
theorem c10_query_robust :
    (∀ dv f, queryAudit dv none f = [])
    ∧ (∀ dv s f e, e ∈ queryAudit dv (some s) f →
        ∃ l, l ∈ auditLines s ∧ jparseL l = some e)
    ∧ queryAudit (fun _ => 0) (some c10Content) noFilters = [c10E0, c10E1] := by
  refine ⟨fun dv f => rfl, ?_, rfl⟩
  intro dv s f e he
  unfold queryAudit at he
  dsimp only at he
  have hs : e ∈ sortDesc (tsKey dv)
      (applyOpt f.status (fun a l => l.filter (fun e => fieldEqStr e "status" a))
        (applyOpt f.endDate
          (fun a l => l.filter (fun e => tsKey dv e ≤ dv (some (JVal.jstr a))))
          (applyOpt f.startDate
            (fun a l => l.filter (fun e => dv (some (JVal.jstr a)) ≤ tsKey dv e))
            (applyOpt f.target (fun a l => l.filter (fun e => fieldEqStr e "target" a))
              (applyOpt f.userId (fun a l => l.filter (fun e => userIdEq e a))
                (applyOpt f.action (fun a l => l.filter (fun e => fieldEqStr e "action" a))
                  ((auditLines s).filterMap jparseL))))))) := by
    rcases hlim : f.limit with _ | lim
    · simp only [hlim] at he
      exact he
    · simp only [hlim] at he
      by_cases h0 : 0 < lim
      · rw [if_pos h0] at he
        exact List.take_subset _ _ he
      · rw [if_neg h0] at he
        exact he
  have h6 := mem_sortDesc (tsKey dv) e _ hs
  have h5 := mem_applyOpt_filter f.status _ _ _ h6
  have h4 := mem_applyOpt_filter f.endDate _ _ _ h5
  have h3 := mem_applyOpt_filter f.startDate _ _ _ h4
  have h2 := mem_applyOpt_filter f.target _ _ _ h3
  have h1 := mem_applyOpt_filter f.userId _ _ _ h2
  have h0 := mem_applyOpt_filter f.action _ _ _ h1
  rcases List.mem_filterMap.mp h0 with ⟨l, hl, hp⟩
  exact ⟨l, hl, hp⟩

/-- C10 witness: the entry parsed from the first line of the concrete
store is a member of the query result, and the theorem traces it back
to a stored line. -/
theorem c10_query_robust_witness :
    ∃ l, l ∈ auditLines c10Content ∧ jparseL l = some c10E0 :=
  c10_query_robust.2.1 (fun _ => 0) c10Content noFilters c10E0
    (by
      have h : queryAudit (fun _ => 0) (some c10Content) noFilters
          = [c10E0, c10E1] := rfl
      rw [h]
      exact List.mem_cons_self _ _)

/-- C1: the status slash-command handler audits exactly once per engine
invocation, on both outcomes, appending the audit entry BEFORE the final
response — but the `quick_collect` button handler reaches the engine
(one invocation) and appends NO audit entry on either outcome, refuting
the claim that every call reaching the Execution Engine is audited. -/
theorem c1_audit_per_engine_call :
    (∀ cfg uid t v, checkPermission cfg uid "status" = true →
      handleStatusEvents cfg uid (some t) (Except.ok v)
        = [BotEv.responded "loading", BotEv.invoked "Get-SystemInfo.ps1" t,
           BotEv.audited "STATUS" t "SUCCESS", BotEv.responded "status_result"])
    ∧ (∀ cfg uid t msg, checkPermission cfg uid "status" = true →
      handleStatusEvents cfg uid (some t) (Except.error msg)
        = [BotEv.responded "loading", BotEv.invoked "Get-SystemInfo.ps1" t,
           BotEv.audited "STATUS" t "FAILED", BotEv.responded "status_error"])
    ∧ (∀ t eng, invokedCount t (quickCollectEvents t eng) = 1
      ∧ auditCount t (quickCollectEvents t eng) = 0) := by
  refine ⟨?_, ?_, ?_⟩
  · intro cfg uid t v h
    simp [handleStatusEvents, h]
  · intro cfg uid t msg h
    simp [handleStatusEvents, h]
  · intro t eng
    cases eng with
    | ok v =>
      constructor
      · simp [invokedCount, quickCollectEvents, List.countP_cons, List.countP_nil]
      · simp [auditCount, quickCollectEvents, List.countP_cons, List.countP_nil]
    | error msg =>
      constructor
      · simp [invokedCount, quickCollectEvents, List.countP_cons, List.countP_nil]
      · simp [auditCount, quickCollectEvents, List.countP_cons, List.countP_nil]

/-- C1 witness: with authentication not required the status handler's
permission check passes, and the theorem gives the audited event list
for a successful engine call on target vm1. -/
theorem c1_audit_per_engine_call_witness :
    handleStatusEvents
      { roles := [], users := [], defaultRole := "SOC_TIER1",
        requireAuthentication := false }
      "U1" (some "vm1") (Except.ok JVal.jnull)
    = [BotEv.responded "loading", BotEv.invoked "Get-SystemInfo.ps1" "vm1",
       BotEv.audited "STATUS" "vm1" "SUCCESS", BotEv.responded "status_result"] :=
  c1_audit_per_engine_call.1
    { roles := [], users := [], defaultRole := "SOC_TIER1",
      requireAuthentication := false }
    "U1" "vm1" JVal.jnull rfl
